import Mathlib

/-!
Verification of the speedate library (Rust) against its specification.

The Rust sources are shallowly embedded: byte slices become `List Nat`
(each element an ASCII byte value), machine integers become `Nat`/`Int`
with explicit bound checks where the source uses checked arithmetic and
explicit `% 2^64` wrapping where the source uses wrapping arithmetic,
and fallible functions return `Except ParseError`/`Option`. Definitions
follow the source files module by module: numbers.rs, util.rs, config.rs,
date.rs, time.rs, datetime.rs, duration.rs.
-/

/-- Error taxonomy of the library (ParseError enum; the variants are those
referenced by the current module sources and listed in the specification). -/
inductive ParseError where
  | TooShort
  | ExtraCharacters
  | InvalidCharDateTimeSep
  | InvalidCharDateSep
  | InvalidCharYear
  | InvalidCharMonth
  | InvalidCharDay
  | InvalidCharTimeSep
  | InvalidCharHour
  | InvalidCharMinute
  | InvalidCharSecond
  | InvalidCharSecondFraction
  | InvalidCharTzSign
  | InvalidCharTzHour
  | InvalidCharTzMinute
  | OutOfRangeMonth
  | OutOfRangeDay
  | OutOfRangeHour
  | OutOfRangeMinute
  | OutOfRangeSecond
  | OutOfRangeTzMinute
  | OutOfRangeTz
  | SecondFractionTooLong
  | SecondFractionMissing
  | MillisecondFractionTooLong
  | DateTooSmall
  | DateTooLarge
  | TimeTooLarge
  | DateNotExact
  | TzRequired
  | SystemTimeError
  | DurationInvalidNumber
  | DurationTRepeated
  | DurationInvalidFraction
  | DurationInvalidTimeUnit
  | DurationInvalidDateUnit
  | DurationInvalidDays
  | DurationValueTooLarge
  | DurationDaysTooLarge
  | DurationHourValueTooLarge
  deriving DecidableEq, Repr

deriving instance DecidableEq for Except

/-- ASCII bytes of a string, the `str::as_bytes` view used by all parsers
(all inputs used here are 7-bit ASCII, where UTF-8 bytes equal code points). -/
def strBytes (s : String) : List Nat := s.toList.map Char.toNat

/-- Rust `u8::is_ascii_digit`, i.e. the byte is one of b'0'..=b'9' (48..=57). -/
def isDigit (c : Nat) : Bool := 48 ≤ c && c ≤ 57

/-- Value of i64::MAX. -/
def i64max : Int := 9223372036854775807

/-- Value of i64::MIN. -/
def i64min : Int := -9223372036854775808

/-- Rust `i64::checked_mul`: `none` when the mathematical product leaves i64. -/
def checked_mul_i64 (a b : Int) : Option Int :=
  if a * b < i64min ∨ i64max < a * b then none else some (a * b)

/-- Rust `i64::checked_add`: `none` when the mathematical sum leaves i64. -/
def checked_add_i64 (a b : Int) : Option Int :=
  if a + b < i64min ∨ i64max < a + b then none else some (a + b)

/-- Two's-complement wrap of a mathematical integer into i64. -/
def wrap64 (x : Int) : Int := (x + 9223372036854775808) % 18446744073709551616 - 9223372036854775808

/-! ## numbers.rs -/

/-- The digit loop of `int_parse_bytes` (src/numbers.rs lines 24-31): for each
byte, `result = result.checked_mul(10)?`, then b'0' adds nothing, b'1'..=b'9'
is `checked_add`-ed, anything else aborts with `None`. -/
def int_parse_loop (result : Int) (digits : List Nat) : Option Int :=
  match digits with
  | [] => some result
  | d :: rest =>
    match checked_mul_i64 result 10 with
    | none => none
    | some r1 =>
      if d = 48 then int_parse_loop r1 rest
      else if 49 ≤ d ∧ d ≤ 57 then
        match checked_add_i64 r1 ((d : Int) - 48) with
        | none => none
        | some r2 => int_parse_loop r2 rest
      else none

/-- Model of `int_parse_bytes` (src/numbers.rs lines 11-37). The slice
patterns `[b'-', first, digits @ ..]`, `[b'+', first, digits @ ..] | [first,
digits @ ..]` become ordered list matches; `first_digit & 0x0f` on an ASCII
digit is its value. -/
def int_parse_bytes (s : List Nat) : Option Int :=
  match s with
  | 45 :: first :: digits => int_parse_signed true first digits
  | 43 :: first :: digits => int_parse_signed false first digits
  | first :: digits => int_parse_signed false first digits
  | [] => none
where
  int_parse_signed (neg : Bool) (first : Nat) (digits : List Nat) : Option Int :=
    let r0 : Option Int :=
      if first = 48 then some 0
      else if 49 ≤ first ∧ first ≤ 57 then some ((first : Int) - 48)
      else none
    match r0 with
    | none => none
    | some acc =>
      match int_parse_loop acc digits with
      | none => none
      | some result => if neg then some (-result) else some result

/-- Result type of the numeric scanner (src/numbers.rs `IntFloat`). The
`Float` constructor of the source carries the f64 produced by the external
`lexical-parse-float` crate; that crate is not part of this repository, so
the model records the full input byte slice handed to it instead of its
numeric result. -/
inductive IntFloat where
  | Int (v : Int)
  | Float (delegated : List Nat)
  | Err
  deriving DecidableEq, Repr

/-- Model of `parse_possible_float` (src/numbers.rs lines 127-137): a
non-dot stopping byte is an error; on a dot the whole input is handed to the
external lexical float parser (kept abstract, see `IntFloat.Float`). -/
def parse_possible_float (s : List Nat) (current_digit : Nat) : IntFloat :=
  if current_digit ≠ 46 then IntFloat.Err else IntFloat.Float s

/-- The digit loop of `float_parse_bytes` (src/numbers.rs lines 75-91):
DECODE_MAP yields the digit value for b'0'..=b'9' and ERR otherwise; on ERR
the whole input goes to `parse_possible_float`; otherwise the i64 accumulator
is updated with `wrapping_mul`/`wrapping_add` and a negative wrapped value
aborts with `Err`. -/
def float_parse_loop (s : List Nat) (int_part : Int) (digits : List Nat) : IntFloat :=
  match digits with
  | [] => IntFloat.Int int_part
  | d :: rest =>
    if isDigit d then
      let next := wrap64 (wrap64 (int_part * 10) + ((d : Int) - 48))
      if next < 0 then IntFloat.Err else float_parse_loop s next rest
    else parse_possible_float s d

/-- Model of `float_parse_bytes` (src/numbers.rs lines 60-98), up to the
final sign application which the caller of the loop performs. -/
def float_parse_bytes (s : List Nat) : IntFloat :=
  match s with
  | 45 :: first :: digits => float_parse_signed s true first digits
  | 43 :: first :: digits => float_parse_signed s false first digits
  | first :: digits => float_parse_signed s false first digits
  | [] => IntFloat.Err
where
  float_parse_signed (s : List Nat) (neg : Bool) (first : Nat) (digits : List Nat) : IntFloat :=
    if ¬ isDigit first then IntFloat.Err
    else
      match float_parse_loop s ((first : Int) - 48) digits with
      | IntFloat.Int v => if neg then IntFloat.Int (-v) else IntFloat.Int v
      | other => other

/-- Model of `decimal_digits` (src/numbers.rs lines 142-147): length of the
fraction after the first dot, 0 when there is no dot or the fraction is empty. -/
def decimal_digits (bytes : List Nat) : Nat :=
  match (bytes.dropWhile (fun b => b ≠ 46)) with
  | [] => 0
  | _ :: fraction => fraction.length

/-! ### Specification-side definitions for the numeric scanner claims -/

/-- Decimal value of a list of ASCII digit bytes. -/
def digitsVal (ds : List Nat) : Nat := ds.foldl (fun a c => 10 * a + (c - 48)) 0

/-- Signed-accumulator fold used to state loop invariants. -/
def digitsValAccI (a : Int) (ds : List Nat) : Int :=
  ds.foldl (fun x c => 10 * x + ((c : Int) - 48)) a

/-- The claim's description of `parse_int`, amended only on the overflow
boundary the code enforces: an optional sign, then one or more ASCII digits
and nothing else, whose magnitude is at most i64::MAX (so i64::MIN itself is
rejected: the value is accumulated positively with checked arithmetic and
negated at the end). -/
def claim_int_parse (s : List Nat) : Option Int :=
  match s with
  | 45 :: rest =>
    if rest ≠ [] ∧ rest.all isDigit ∧ (digitsVal rest : Int) ≤ i64max then
      some (-(digitsVal rest : Int))
    else none
  | 43 :: rest =>
    if rest ≠ [] ∧ rest.all isDigit ∧ (digitsVal rest : Int) ≤ i64max then
      some (digitsVal rest : Int)
    else none
  | rest =>
    if rest ≠ [] ∧ rest.all isDigit ∧ (digitsVal rest : Int) ≤ i64max then
      some (digitsVal rest : Int)
    else none

/-! ## config.rs -/

/-- How a bare numeric timestamp's unit is chosen (config.rs `TimestampUnit`);
`Infer` is the Rust `Default`. -/
inductive TimestampUnit where
  | Second
  | Millisecond
  | Infer
  deriving DecidableEq, Repr

/-- Configuration for parsing `Date` (config.rs `DateConfig`). -/
structure DateConfig where
  timestamp_unit : TimestampUnit
  deriving DecidableEq, Repr

/-- The `DateConfig` built by `DateConfigBuilder::new().build()`. -/
def defaultDateConfig : DateConfig := ⟨TimestampUnit.Infer⟩

/-- Behavior on a seventh fractional-second digit (time.rs
`MicrosecondsPrecisionOverflowBehavior`); `Error` is the Rust `Default`. -/
inductive MicrosecondsPrecisionOverflowBehavior where
  | Truncate
  | Error
  deriving DecidableEq, Repr

/-- Configuration for parsing times (config.rs `TimeConfig`). -/
structure TimeConfig where
  microseconds_precision_overflow_behavior : MicrosecondsPrecisionOverflowBehavior
  unix_timestamp_offset : Option Int
  deriving DecidableEq, Repr

/-- The `TimeConfig` built by `TimeConfigBuilder::new().build()`. -/
def defaultTimeConfig : TimeConfig := ⟨MicrosecondsPrecisionOverflowBehavior.Error, none⟩

/-! ## util.rs and the date-range constants of date.rs -/

/-- Watershed between second and millisecond timestamps (date.rs line 61). -/
def MS_WATERSHED : Int := 20000000000

/-- Unix timestamp of 9999-12-31T23:59:59 (date.rs line 63). -/
def UNIX_9999 : Int := 253402300799

/-- Unix timestamp of 0000-01-01T00:00:00 (date.rs line 65). -/
def UNIX_0000 : Int := -62167219200

/-- Rust `i64::checked_abs`: `none` exactly at i64::MIN. -/
def checked_abs_i64 (a : Int) : Option Int :=
  if a = i64min then none else some |a|

/-- Model of `timestamp_watershed` (src/util.rs lines 4-16). Rust `/` and `%`
on i64 truncate toward zero, so they become `Int.tdiv`/`Int.tmod`; the i32
cast of `(timestamp % 1_000) * 1000` is value-preserving (the value is in
(-10^6, 10^6)), and after the negative-remainder fixup the `as u32` cast is
of a value in [0, 999000]. -/
def timestamp_watershed (timestamp : Int) : Except ParseError (Int × Nat) :=
  match checked_abs_i64 timestamp with
  | none => .error ParseError.DateTooSmall
  | some ts_abs =>
    if ts_abs ≤ MS_WATERSHED then .ok (timestamp, 0)
    else
      let seconds := timestamp.tdiv 1000
      let microseconds := timestamp.tmod 1000 * 1000
      if microseconds < 0 then .ok (seconds - 1, (microseconds + 1000000).toNat)
      else .ok (seconds, microseconds.toNat)

/-- Model of `timestamp_to_seconds_micros` (src/util.rs lines 18-32). -/
def timestamp_to_seconds_micros (timestamp : Int) (unit : TimestampUnit) :
    Except ParseError (Int × Nat) :=
  match unit with
  | TimestampUnit.Second => .ok (timestamp, 0)
  | TimestampUnit.Millisecond =>
    let seconds := timestamp.tdiv 1000
    let microseconds := timestamp.tmod 1000 * 1000
    if microseconds < 0 then .ok (seconds - 1, (microseconds + 1000000).toNat)
    else .ok (seconds, microseconds.toNat)
  | TimestampUnit.Infer => timestamp_watershed timestamp

/-! ## date.rs -/

/-- A Date (date.rs lines 29-36): year 0..=9999, month 1..=12, day 1..=31
for values produced by the library; u16/u8 fields become `Nat`. -/
structure Date where
  year : Nat
  month : Nat
  day : Nat
  deriving DecidableEq, Repr

/-- Model of `is_leap_year` (date.rs lines 386-392). -/
def is_leap_year (year : Nat) : Bool :=
  if year % 100 = 0 then year % 400 == 0 else year % 4 == 0

/-- Model of `intervening_leap_years` (date.rs lines 396-402); i64 `/` is
truncating division. -/
def intervening_leap_years (delta_years : Int) : Int :=
  if delta_years = 0 then 0
  else (delta_years - 1).tdiv 4 - (delta_years - 1).tdiv 100 + (delta_years - 1).tdiv 400 + 1

/-- Model of `leap_year_month_day` (date.rs lines 404-419): the i16 range
match becomes an if-chain; `day as u8 - k` on the matched ranges is the
value `day - k` (written with `Int.toNat` on the in-range difference). -/
def leap_year_month_day (day : Int) : Nat × Nat :=
  if 1 ≤ day ∧ day ≤ 31 then (1, day.toNat)
  else if 32 ≤ day ∧ day ≤ 60 then (2, (day - 31).toNat)
  else if 61 ≤ day ∧ day ≤ 91 then (3, (day - 60).toNat)
  else if 92 ≤ day ∧ day ≤ 121 then (4, (day - 91).toNat)
  else if 122 ≤ day ∧ day ≤ 152 then (5, (day - 121).toNat)
  else if 153 ≤ day ∧ day ≤ 182 then (6, (day - 152).toNat)
  else if 183 ≤ day ∧ day ≤ 213 then (7, (day - 182).toNat)
  else if 214 ≤ day ∧ day ≤ 244 then (8, (day - 213).toNat)
  else if 245 ≤ day ∧ day ≤ 274 then (9, (day - 244).toNat)
  else if 275 ≤ day ∧ day ≤ 305 then (10, (day - 274).toNat)
  else if 306 ≤ day ∧ day ≤ 335 then (11, (day - 305).toNat)
  else (12, (day - 335).toNat)

/-- Model of `common_year_month_day` (date.rs lines 421-436). -/
def common_year_month_day (day : Int) : Nat × Nat :=
  if 1 ≤ day ∧ day ≤ 31 then (1, day.toNat)
  else if 32 ≤ day ∧ day ≤ 59 then (2, (day - 31).toNat)
  else if 60 ≤ day ∧ day ≤ 90 then (3, (day - 59).toNat)
  else if 91 ≤ day ∧ day ≤ 120 then (4, (day - 90).toNat)
  else if 121 ≤ day ∧ day ≤ 151 then (5, (day - 120).toNat)
  else if 152 ≤ day ∧ day ≤ 181 then (6, (day - 151).toNat)
  else if 182 ≤ day ∧ day ≤ 212 then (7, (day - 181).toNat)
  else if 213 ≤ day ∧ day ≤ 243 then (8, (day - 212).toNat)
  else if 244 ≤ day ∧ day ≤ 273 then (9, (day - 243).toNat)
  else if 274 ≤ day ∧ day ≤ 304 then (10, (day - 273).toNat)
  else if 305 ≤ day ∧ day ≤ 334 then (11, (day - 304).toNat)
  else (12, (day - 334).toNat)

/-- Model of `Date::ordinal_day` (date.rs lines 282-299). -/
def Date.ordinal_day (d : Date) : Nat :=
  let leap_extra := if is_leap_year d.year then 1 else 0
  match d.month with
  | 1 => d.day
  | 2 => d.day + 31
  | 3 => d.day + 59 + leap_extra
  | 4 => d.day + 90 + leap_extra
  | 5 => d.day + 120 + leap_extra
  | 6 => d.day + 151 + leap_extra
  | 7 => d.day + 181 + leap_extra
  | 8 => d.day + 212 + leap_extra
  | 9 => d.day + 243 + leap_extra
  | 10 => d.day + 273 + leap_extra
  | 11 => d.day + 304 + leap_extra
  | _ => d.day + 334 + leap_extra

/-- Model of `Date::timestamp` (date.rs lines 242-246); `ordinal_day() - 1`
is computed on a value that is at least 1 for every date the library
constructs, so the u16 subtraction is the integer difference. -/
def Date.timestamp (d : Date) : Int :=
  let days : Int := (d.year : Int) * 365 + ((d.ordinal_day : Int) - 1)
    + intervening_leap_years (d.year : Int)
  days * 86400 + UNIX_0000

/-- The `while ordinal_day < 1` loop of `Date::from_timestamp_calc` (date.rs
lines 317-321), by recursion on the year. The u16 `year -= 1` cannot
underflow on inputs the caller passes: when the year reaches 0 the ordinal
is (days since 0000-01-01) + 1 which is at least 1, so the loop has exited
(`from_ts_loop_spec` below proves the exit condition); the value returned in
the impossible `(0, o)` case with `o < 1` is never reached. -/
def from_ts_loop : Nat → Int → Nat × Int
  | 0, o => (0, o)
  | (y + 1), o =>
    if o < 1 then from_ts_loop y (o + (if is_leap_year y then 366 else 365))
    else (y + 1, o)

/-- Model of `Date::from_timestamp_calc` (date.rs lines 301-327). Casts in
the source are value-preserving on the checked range: `delta_years as u16`
(at most 10006), the i16 ordinal (within [-2500, 366]), and
`rem_euclid(86_400) as u32` (non-negative); `rem_euclid` is `Int.emod`. -/
def Date.from_timestamp_calc (timestamp_second : Int) : Except ParseError (Date × Nat) :=
  if timestamp_second < UNIX_0000 then .error ParseError.DateTooSmall
  else if UNIX_9999 < timestamp_second then .error ParseError.DateTooLarge
  else
    let seconds_diff := timestamp_second - UNIX_0000
    let delta_days := seconds_diff.tdiv 86400
    let delta_years := delta_days.tdiv 365
    let leap_years := intervening_leap_years delta_years
    let ordinal0 : Int := delta_days.tmod 365 - leap_years + 1
    let yo := from_ts_loop delta_years.toNat ordinal0
    let leap_year := is_leap_year yo.1
    let md := if leap_year then leap_year_month_day yo.2 else common_year_month_day yo.2
    .ok (⟨yo.1, md.1, md.2⟩, (timestamp_second.emod 86400).toNat)

/-- Model of `Date::from_timestamp` (date.rs lines 223-230). -/
def Date.from_timestamp (timestamp : Int) (require_exact : Bool) (config : DateConfig) :
    Except ParseError Date :=
  match timestamp_to_seconds_micros timestamp config.timestamp_unit with
  | .error e => .error e
  | .ok (seconds, microseconds) =>
    match Date.from_timestamp_calc seconds with
    | .error e => .error e
    | .ok (d, remaining_seconds) =>
      if require_exact ∧ (remaining_seconds ≠ 0 ∨ microseconds ≠ 0) then
        .error ParseError.DateNotExact
      else .ok d

/-- The `get_digit!`/`get_digit_unchecked!` macros of lib.rs: the byte at
`i`, required to be an ASCII digit, as its value (the unchecked variant is
always used behind a length check, where the two coincide). -/
def getDigitAt (bytes : List Nat) (i : Nat) (e : ParseError) : Except ParseError Nat :=
  match bytes.get? i with
  | some c => if isDigit c then .ok (c - 48) else .error e
  | none => .error e

/-- Model of `Date::parse_bytes_partial` (date.rs lines 330-383). -/
def Date.parse_bytes_partial (bytes : List Nat) : Except ParseError Date :=
  if bytes.length < 10 then .error ParseError.TooShort
  else
    match getDigitAt bytes 0 ParseError.InvalidCharYear,
          getDigitAt bytes 1 ParseError.InvalidCharYear,
          getDigitAt bytes 2 ParseError.InvalidCharYear,
          getDigitAt bytes 3 ParseError.InvalidCharYear with
    | .ok y1, .ok y2, .ok y3, .ok y4 =>
      let year := y1 * 1000 + y2 * 100 + y3 * 10 + y4
      if bytes.get? 4 ≠ some 45 then .error ParseError.InvalidCharDateSep
      else
        match getDigitAt bytes 5 ParseError.InvalidCharMonth,
              getDigitAt bytes 6 ParseError.InvalidCharMonth with
        | .ok m1, .ok m2 =>
          let month := m1 * 10 + m2
          if bytes.get? 7 ≠ some 45 then .error ParseError.InvalidCharDateSep
          else
            match getDigitAt bytes 8 ParseError.InvalidCharDay,
                  getDigitAt bytes 9 ParseError.InvalidCharDay with
            | .ok d1, .ok d2 =>
              let day := d1 * 10 + d2
              match (if month = 1 ∨ month = 3 ∨ month = 5 ∨ month = 7 ∨ month = 8
                        ∨ month = 10 ∨ month = 12 then some 31
                     else if month = 4 ∨ month = 6 ∨ month = 9 ∨ month = 11 then some 30
                     else if month = 2 then
                       some (if year % 4 = 0 ∧ (year % 100 ≠ 0 ∨ year % 400 = 0) then 29 else 28)
                     else none) with
              | none => .error ParseError.OutOfRangeMonth
              | some max_days =>
                if day < 1 ∨ max_days < day then .error ParseError.OutOfRangeDay
                else .ok ⟨year, month, day⟩
            | .error e, _ => .error e
            | _, .error e => .error e
        | .error e, _ => .error e
        | _, .error e => .error e
    | .error e, _, _, _ => .error e
    | _, .error e, _, _ => .error e
    | _, _, .error e, _ => .error e
    | _, _, _, .error e => .error e

/-! ## time.rs -/

/-- A Time (time.rs lines 27-40): u8/u32 fields become `Nat`, and the
optional timezone offset in seconds becomes `Option Int`. -/
structure Time where
  hour : Nat
  minute : Nat
  second : Nat
  microsecond : Nat
  tz_offset : Option Int
  deriving DecidableEq, Repr

/-- The internal carrier of the shared time-body parser (time.rs `PureTime`,
lines 478-489). -/
structure PureTime where
  hour : Nat
  minute : Nat
  second : Nat
  microsecond : Nat
  position : Nat
  deriving DecidableEq, Repr

/-- Model of `PureTime::total_seconds` (time.rs lines 582-584). -/
def PureTime.total_seconds (t : PureTime) : Nat :=
  t.hour * 3600 + t.minute * 60 + t.second

/-- The fractional-second loop of `PureTime::parse` (time.rs lines 535-559):
digits are accumulated into the microsecond value while fewer than six have
been seen; a seventh consumed digit either truncates (no-op) or raises
`SecondFractionTooLong` according to the config. Returns the digit count and
the accumulated value at the first non-digit. -/
def pure_time_frac_loop (config : TimeConfig) (rest : List Nat) (i microsecond : Nat) :
    Except ParseError (Nat × Nat) :=
  match rest with
  | [] => .ok (i, microsecond)
  | c :: rest1 =>
    if isDigit c then
      let micro1 := if i < 6 then microsecond * 10 + (c - 48) else microsecond
      if 6 < i + 1 then
        match config.microseconds_precision_overflow_behavior with
        | MicrosecondsPrecisionOverflowBehavior.Truncate => pure_time_frac_loop config rest1 (i + 1) micro1
        | MicrosecondsPrecisionOverflowBehavior.Error => .error ParseError.SecondFractionTooLong
      else pure_time_frac_loop config rest1 (i + 1) micro1
    else .ok (i, microsecond)

/-- Model of `PureTime::parse` (time.rs lines 492-580). The `bytes.len() -
offset` underflow cannot occur for the library's callers (truncating `Nat`
subtraction gives `TooShort` in that unreachable case, as the usize
subtraction would panic). -/
def PureTime.parse (bytes : List Nat) (offset : Nat) (config : TimeConfig) :
    Except ParseError PureTime :=
  if bytes.length - offset < 5 then .error ParseError.TooShort
  else
    match getDigitAt bytes offset ParseError.InvalidCharHour,
          getDigitAt bytes (offset + 1) ParseError.InvalidCharHour with
    | .ok h1, .ok h2 =>
      if bytes.get? (offset + 2) ≠ some 58 then .error ParseError.InvalidCharTimeSep
      else
        match getDigitAt bytes (offset + 3) ParseError.InvalidCharMinute,
              getDigitAt bytes (offset + 4) ParseError.InvalidCharMinute with
        | .ok m1, .ok m2 =>
          let hour := h1 * 10 + h2
          let minute := m1 * 10 + m2
          if 23 < hour then .error ParseError.OutOfRangeHour
          else if 59 < minute then .error ParseError.OutOfRangeMinute
          else
            match bytes.get? (offset + 5) with
            | some 58 =>
              match getDigitAt bytes (offset + 6) ParseError.InvalidCharSecond,
                    getDigitAt bytes (offset + 7) ParseError.InvalidCharSecond with
              | .ok s1, .ok s2 =>
                let second := s1 * 10 + s2
                if 59 < second then .error ParseError.OutOfRangeSecond
                else
                  let frac_sep := bytes.get? (offset + 8)
                  if frac_sep = some 46 ∨ frac_sep = some 44 then
                    match pure_time_frac_loop config (bytes.drop (offset + 9)) 0 0 with
                    | .error e => .error e
                    | .ok (i, micro0) =>
                      if i = 0 then .error ParseError.SecondFractionMissing
                      else
                        let microsecond := if i < 6 then micro0 * 10 ^ (6 - i) else micro0
                        .ok ⟨hour, minute, second, microsecond, offset + 9 + i⟩
                  else .ok ⟨hour, minute, second, 0, offset + 8⟩
              | .error e, _ => .error e
              | _, .error e => .error e
            | _ => .ok ⟨hour, minute, 0, 0, offset + 5⟩
        | .error e, _ => .error e
        | _, .error e => .error e
    | .error e, _ => .error e
    | _, .error e => .error e

/-- The timezone-suffix parser inside `Time::parse_bytes_offset` (time.rs
lines 306-361), returning the offset (when any) and the final position. -/
def time_tz_suffix (bytes : List Nat) (position : Nat) :
    Except ParseError (Option Int × Nat) :=
  match bytes.get? position with
  | none => .ok (none, position)
  | some next_char =>
    if next_char = 90 ∨ next_char = 122 then .ok (some 0, position + 1)
    else
      let sign_parse : Except ParseError (Int × Nat) :=
        if next_char = 43 then .ok (1, position + 1)
        else if next_char = 45 then .ok (-1, position + 1)
        else if next_char = 226 then
          if bytes.get? (position + 1) ≠ some 136 then .error ParseError.InvalidCharTzSign
          else if bytes.get? (position + 2) ≠ some 146 then .error ParseError.InvalidCharTzSign
          else .ok (-1, position + 3)
        else .error ParseError.InvalidCharTzSign
      match sign_parse with
      | .error e => .error e
      | .ok (sign, pos1) =>
        match getDigitAt bytes pos1 ParseError.InvalidCharTzHour,
              getDigitAt bytes (pos1 + 1) ParseError.InvalidCharTzHour with
        | .ok h1, .ok h2 =>
          let m1_parse : Except ParseError (Nat × Nat) :=
            match bytes.get? (pos1 + 2) with
            | some 58 =>
              match getDigitAt bytes (pos1 + 3) ParseError.InvalidCharTzMinute with
              | .ok m1 => .ok (m1, pos1 + 3)
              | .error e => .error e
            | some c => if isDigit c then .ok (c - 48, pos1 + 2)
                        else .error ParseError.InvalidCharTzMinute
            | none => .error ParseError.InvalidCharTzMinute
          match m1_parse with
          | .error e => .error e
          | .ok (m1, pos2) =>
            match getDigitAt bytes (pos2 + 1) ParseError.InvalidCharTzMinute with
            | .error e => .error e
            | .ok m2 =>
              let minute_seconds := m1 * 600 + m2 * 60
              if 3600 ≤ minute_seconds then .error ParseError.OutOfRangeTzMinute
              else
                let offset_val : Int := sign * (h1 * 36000 + h2 * 3600 + minute_seconds)
                if 86400 ≤ |offset_val| then .error ParseError.OutOfRangeTz
                else .ok (some offset_val, pos2 + 2)
        | .error e, _ => .error e
        | _, .error e => .error e

/-- Model of `Time::parse_bytes_offset` (time.rs lines 302-375). -/
def Time.parse_bytes_offset (bytes : List Nat) (offset : Nat) (config : TimeConfig) :
    Except ParseError Time :=
  match PureTime.parse bytes offset config with
  | .error e => .error e
  | .ok pure_time =>
    match time_tz_suffix bytes pure_time.position with
    | .error e => .error e
    | .ok (tz_offset, position) =>
      if position < bytes.length then .error ParseError.ExtraCharacters
      else .ok ⟨pure_time.hour, pure_time.minute, pure_time.second, pure_time.microsecond, tz_offset⟩

/-- Model of `Time::parse_bytes` (time.rs lines 199-201). -/
def Time.parse_bytes (bytes : List Nat) : Except ParseError Time :=
  Time.parse_bytes_offset bytes 0 defaultTimeConfig

/-- Model of `Time::total_seconds` (time.rs lines 389-394). -/
def Time.total_seconds (t : Time) : Nat :=
  t.hour * 3600 + t.minute * 60 + t.second

/-- Model of `Time::from_timestamp_with_config` (time.rs lines 276-299);
the u32 `checked_add` cannot overflow here because both summands are below
2^32, so the model adds directly. -/
def Time.from_timestamp_with_config (timestamp_second timestamp_microsecond : Nat)
    (config : TimeConfig) : Except ParseError Time :=
  let second := if 1000000 ≤ timestamp_microsecond
    then timestamp_second + timestamp_microsecond / 1000000 else timestamp_second
  let microsecond := if 1000000 ≤ timestamp_microsecond
    then timestamp_microsecond % 1000000 else timestamp_microsecond
  if 86400 ≤ second then .error ParseError.TimeTooLarge
  else .ok ⟨second / 3600, second % 3600 / 60, second % 60, microsecond, config.unix_timestamp_offset⟩

/-- Model of `Time::from_timestamp` (time.rs lines 250-256). -/
def Time.from_timestamp (timestamp_second timestamp_microsecond : Nat) :
    Except ParseError Time :=
  Time.from_timestamp_with_config timestamp_second timestamp_microsecond defaultTimeConfig

/-- Model of `Time::with_timezone_offset` (time.rs lines 432-441). -/
def Time.with_timezone_offset (t : Time) (tz_offset : Option Int) : Except ParseError Time :=
  match tz_offset with
  | some offset_val =>
    if 86400 ≤ |offset_val| then .error ParseError.OutOfRangeTz
    else .ok ⟨t.hour, t.minute, t.second, t.microsecond, tz_offset⟩
  | none => .ok ⟨t.hour, t.minute, t.second, t.microsecond, none⟩

/-- Rust `u32::saturating_add_signed`: the sum clamped into the u32 range. -/
def u32_saturating_add_signed (a : Nat) (b : Int) : Nat :=
  (min (max ((a : Int) + b) 0) 4294967295).toNat

/-- Model of `Time::in_timezone` (time.rs lines 462-474). Note the source
stores `offset = tz_offset - current_offset` (the difference), not the
requested `tz_offset`, in the result. -/
def Time.in_timezone (t : Time) (tz_offset : Int) : Except ParseError Time :=
  if 86400 ≤ |tz_offset| then .error ParseError.OutOfRangeTz
  else
    match t.tz_offset with
    | some current_offset =>
      let offset := tz_offset - current_offset
      let seconds := u32_saturating_add_signed t.total_seconds offset
      match Time.from_timestamp seconds t.microsecond with
      | .error e => .error e
      | .ok time => .ok ⟨time.hour, time.minute, time.second, time.microsecond, some offset⟩
    | none => .error ParseError.TzRequired

/-- Model of `Time::partial_cmp` (time.rs lines 128-141): with two offsets
the comparison is on offset-adjusted total seconds, otherwise on raw total
seconds, with the microsecond as tiebreaker; i64/u32 `partial_cmp` is total,
so the result is always `some`. -/
def Time.cmp (t1 t2 : Time) : Option Ordering :=
  match t1.tz_offset, t2.tz_offset with
  | some tz1, some tz2 =>
    match compare ((t1.total_seconds : Int) - tz1) ((t2.total_seconds : Int) - tz2) with
    | Ordering.eq => some (compare t1.microsecond t2.microsecond)
    | o => some o
  | _, _ =>
    match compare t1.total_seconds t2.total_seconds with
    | Ordering.eq => some (compare t1.microsecond t2.microsecond)
    | o => some o

/-! ## datetime.rs -/

/-- A DateTime (datetime.rs lines 28-33). -/
structure DateTime where
  date : Date
  time : Time
  deriving DecidableEq, Repr

/-- The derived lexicographic `PartialOrd` of `Date` (date.rs line 28): the
fields year, month, day are compared in order; all field comparisons are
total so the result is always `some`. -/
def Date.cmp (d1 d2 : Date) : Option Ordering :=
  some ((compare d1.year d2.year).then ((compare d1.month d2.month).then (compare d1.day d2.day)))

/-- Model of `DateTime::timestamp` (datetime.rs lines 580-582). -/
def DateTime.timestamp (dt : DateTime) : Int :=
  dt.date.timestamp + (dt.time.total_seconds : Int)

/-- Model of `DateTime::timestamp_tz` (datetime.rs lines 604-609). -/
def DateTime.timestamp_tz (dt : DateTime) : Int :=
  match dt.time.tz_offset with
  | some tz_offset => dt.timestamp - tz_offset
  | none => dt.timestamp

/-- Model of `DateTime::partial_cmp` (datetime.rs lines 123-134): two
offset-bearing datetimes compare by `timestamp_tz()` with the microsecond as
tiebreaker; otherwise the date comparison is tried first and the time
comparison breaks the tie. -/
def DateTime.cmp (a b : DateTime) : Option Ordering :=
  match a.time.tz_offset, b.time.tz_offset with
  | some _, some _ =>
    match compare a.timestamp_tz b.timestamp_tz with
    | Ordering.eq => some (compare a.time.microsecond b.time.microsecond)
    | o => some o
  | _, _ =>
    match Date.cmp a.date b.date with
    | some Ordering.eq => Time.cmp a.time b.time
    | o => o

/-- Model of `DateTime::parse_bytes_rfc3339_with_config` (datetime.rs lines
289-303). -/
def DateTime.parse_bytes_rfc3339_with_config (bytes : List Nat) (config : TimeConfig) :
    Except ParseError DateTime :=
  match Date.parse_bytes_partial bytes with
  | .error e => .error e
  | .ok date =>
    let sep := bytes.get? 10
    if sep ≠ some 84 ∧ sep ≠ some 116 ∧ sep ≠ some 32 ∧ sep ≠ some 95 then
      .error ParseError.InvalidCharDateTimeSep
    else
      match Time.parse_bytes_offset bytes 11 config with
      | .error e => .error e
      | .ok time => .ok ⟨date, time⟩

/-- Model of `DateTime::parse_bytes_rfc3339` (datetime.rs lines 253-255). -/
def DateTime.parse_bytes_rfc3339 (bytes : List Nat) : Except ParseError DateTime :=
  DateTime.parse_bytes_rfc3339_with_config bytes defaultTimeConfig

/-- Model of `DateTime::from_timestamp_with_config` (datetime.rs lines
417-437); the u32 `checked_add` of the microsecond parts cannot overflow for
values below 2^32 produced here, so the model adds directly. -/
def DateTime.from_timestamp_with_config (timestamp : Int) (timestamp_microsecond : Nat)
    (config : TimeConfig) : Except ParseError DateTime :=
  match timestamp_watershed timestamp with
  | .error e => .error e
  | .ok (second0, extra_microsecond) =>
    let total_microsecond := timestamp_microsecond + extra_microsecond
    let second := if 1000000 ≤ total_microsecond
      then second0 + (total_microsecond : Int) / 1000000 else second0
    let total_microsecond := if 1000000 ≤ total_microsecond
      then total_microsecond % 1000000 else total_microsecond
    match Date.from_timestamp_calc second with
    | .error e => .error e
    | .ok (date, time_second) =>
      match Time.from_timestamp_with_config time_second total_microsecond config with
      | .error e => .error e
      | .ok time => .ok ⟨date, time⟩

/-! ## A model of IEEE-754 binary64 (f64) arithmetic over the rationals

The fraction handling of duration.rs computes with f64. Every f64 value
arising there is finite and stays far inside the normal range
[2^-1022, 2^1024), so an f64 operation is "compute the exact rational
result, then round it to 53 significant bits, ties to even". `fl` is that
rounding; each Rust operation `a ∘ b` on f64 becomes `fl` of the exact
result. -/

/-- Round a rational to an integer, ties to even. -/
def rhe (x : ℚ) : ℤ :=
  let n := ⌊x⌋
  if x - n < 1 / 2 then n
  else if 1 / 2 < x - n then n + 1
  else if n % 2 = 0 then n else n + 1

/-- Round a rational to the nearest binary64 value (ties to even): scale into
[2^52, 2^53), round to an integer, scale back. Exact for zero; negative
values round symmetrically. -/
def fl (q : ℚ) : ℚ :=
  if q = 0 then 0
  else if 0 < q then
    (rhe (q / 2 ^ (Int.log 2 q - 52)) : ℚ) * 2 ^ (Int.log 2 q - 52)
  else
    -((rhe (-q / 2 ^ (Int.log 2 (-q) - 52)) : ℚ) * 2 ^ (Int.log 2 (-q) - 52))

/-- f64 multiplication: correctly rounded exact product. -/
def fmul (a b : ℚ) : ℚ := fl (a * b)

/-- f64 addition: correctly rounded exact sum. -/
def fadd (a b : ℚ) : ℚ := fl (a + b)

/-- f64 subtraction: correctly rounded exact difference. -/
def fsub (a b : ℚ) : ℚ := fl (a - b)

/-- f64 division: correctly rounded exact quotient. -/
def fdiv (a b : ℚ) : ℚ := fl (a / b)

/-- Rust `f64::trunc`: round toward zero to an integer (the result of
truncating a finite f64 is exactly representable). -/
def ftrunc (q : ℚ) : ℚ :=
  if 0 ≤ q then (⌊q⌋ : ℚ) else -((⌊-q⌋ : ℚ))

/-- Rust `f64::round`: round half away from zero to an integer. -/
def fround (q : ℚ) : ℚ :=
  if 0 ≤ q then (⌊q + 1 / 2⌋ : ℚ) else -((⌊-q + 1 / 2⌋ : ℚ))

/-- Rust `as u32` on an f64: truncate toward zero and saturate into u32. -/
def f64_as_u32 (q : ℚ) : Nat :=
  if q ≤ 0 then 0
  else if (4294967295 : ℚ) ≤ q then 4294967295
  else (⌊q⌋).toNat

/-! ## duration.rs -/

/-- A Duration (duration.rs lines 46-55): sign plus unsigned magnitudes. -/
structure Duration where
  positive : Bool
  day : Nat
  second : Nat
  microsecond : Nat
  deriving DecidableEq, Repr

/-- Model of `Duration::to_hms` (duration.rs lines 108-114). -/
def Duration.to_hms (d : Duration) : Nat × Nat × Nat :=
  (d.second / 3600, d.second % 3600 / 60, d.second % 60)

/-- Lexicographic comparison of the `(day, second, microsecond)` triples, as
Rust's tuple `PartialOrd` computes it (total on u32 triples). -/
def durTripleCmp (a b : Nat × Nat × Nat) : Ordering :=
  (compare a.1 b.1).then ((compare a.2.1 b.2.1).then (compare a.2.2 b.2.2))

/-- Model of `Duration::partial_cmp` (duration.rs lines 143-157): a positive
duration is greater than a negative one; two durations of the same sign
compare lexicographically on (day, second, microsecond), with the arguments
swapped when both are negative. -/
def Duration.cmp (d1 d2 : Duration) : Option Ordering :=
  match d1.positive, d2.positive with
  | true, false => some Ordering.gt
  | false, true => some Ordering.lt
  | self_positive, _ =>
    if self_positive then
      some (durTripleCmp (d1.day, d1.second, d1.microsecond) (d2.day, d2.second, d2.microsecond))
    else
      some (durTripleCmp (d2.day, d2.second, d2.microsecond) (d1.day, d1.second, d1.microsecond))

/-- Value of u32::MAX. -/
def u32max : Nat := 4294967295

/-- The `checked!` macro over `u32::checked_add` (duration.rs lines 160-167):
overflow maps to `DurationValueTooLarge`. -/
def checked_add_u32 (a b : Nat) : Except ParseError Nat :=
  if u32max < a + b then .error ParseError.DurationValueTooLarge else .ok (a + b)

/-- The `checked!` macro over `u32::checked_mul`. -/
def checked_mul_u32 (a b : Nat) : Except ParseError Nat :=
  if u32max < a * b then .error ParseError.DurationValueTooLarge else .ok (a * b)

/-- Model of `Duration::normalize` (duration.rs lines 329-349). -/
def Duration.normalize (d : Duration) : Except ParseError Duration :=
  match (if 1000000 ≤ d.microsecond then
           match checked_add_u32 d.second (d.microsecond / 1000000) with
           | .error e => .error e
           | .ok s => .ok (s, d.microsecond % 1000000)
         else (.ok (d.second, d.microsecond) : Except ParseError (Nat × Nat))) with
  | .error e => .error e
  | .ok (second, microsecond) =>
    match (if 86400 ≤ second then
             match checked_add_u32 d.day (second / 86400) with
             | .error e => .error e
             | .ok dd => .ok (dd, second % 86400)
           else (.ok (d.day, second) : Except ParseError (Nat × Nat))) with
    | .error e => .error e
    | .ok (day, second) =>
      if 999999999 < day then .error ParseError.DurationDaysTooLarge
      else .ok ⟨d.positive, day, second, microsecond⟩

/-- The digit loop of `Duration::parse_number` (duration.rs lines 575-584):
`pos` is the index the loop is at, `rest` the corresponding suffix of the
input; the loop stops at the first non-digit. -/
def Duration.parse_number_loop (value : Nat) (rest : List Nat) (pos : Nat) :
    Except ParseError (Nat × Nat × List Nat) :=
  match rest with
  | [] => .ok (value, pos, rest)
  | c :: rest1 =>
    if isDigit c then
      match checked_mul_u32 value 10 with
      | .error e => .error e
      | .ok v1 =>
        match checked_add_u32 v1 (c - 48) with
        | .error e => .error e
        | .ok v2 => Duration.parse_number_loop v2 rest1 (pos + 1)
    else .ok (value, pos, rest)

/-- Model of `Duration::parse_number` (duration.rs lines 569-585): `d1` is
the byte at index `pos`, `rest` the suffix after it. -/
def Duration.parse_number (d1 : Nat) (rest : List Nat) (pos : Nat) :
    Except ParseError (Nat × Nat × List Nat) :=
  if isDigit d1 then Duration.parse_number_loop (d1 - 48) rest (pos + 1)
  else .error ParseError.DurationInvalidNumber

/-- The fraction loop of `Duration::parse_number_frac` (duration.rs lines
592-604): f64 accumulation of `decimal` and `denominator`, returning the f64
quotient at the first non-digit. -/
def Duration.frac_loop (decimal denominator : ℚ) (rest : List Nat) (pos : Nat) :
    ℚ × Nat × List Nat :=
  match rest with
  | [] => (fdiv decimal denominator, pos, rest)
  | c :: rest1 =>
    if isDigit c then
      Duration.frac_loop (fadd (fmul decimal 10) ((c - 48 : Nat) : ℚ)) (fmul denominator 10) rest1 (pos + 1)
    else (fdiv decimal denominator, pos, rest)

/-- Model of `Duration::parse_number_frac` (duration.rs lines 587-608). -/
def Duration.parse_number_frac (d1 : Nat) (rest : List Nat) (pos : Nat) :
    Except ParseError (Nat × Option ℚ × Nat × List Nat) :=
  match Duration.parse_number d1 rest pos with
  | .error e => .error e
  | .ok (value, pos1, rest1) =>
    match rest1 with
    | c :: rest2 =>
      if c = 46 ∨ c = 44 then
        match Duration.frac_loop 0 1 rest2 (pos1 + 1) with
        | (q, pos2, rest3) => .ok (value, some q, pos2, rest3)
      else .ok (value, none, pos1, rest1)
    | [] => .ok (value, none, pos1, rest1)

/-- The main loop of `Duration::parse_iso_duration` (duration.rs lines
358-413). `fuel` only bounds the recursion: the loop advances at least one
byte per iteration, so `rest.length + 1` is always enough and the `fuel = 0`
case is unreachable for the call below. -/
def Duration.parse_iso_loop (fuel : Nat) (rest : List Nat) (pos : Nat)
    (got_t last_had_fraction : Bool) (day second microsecond : Nat) :
    Except ParseError (Nat × Nat × Nat × Nat) :=
  match fuel with
  | 0 => .error ParseError.TooShort
  | fuel + 1 =>
    match rest with
    | [] => .ok (day, second, microsecond, pos)
    | c :: rest1 =>
      if c = 84 then
        if got_t then .error ParseError.DurationTRepeated
        else Duration.parse_iso_loop fuel rest1 (pos + 1) true last_had_fraction day second microsecond
      else
        match Duration.parse_number_frac c rest1 pos with
        | .error e => .error e
        | .ok (value, op_fraction, pos1, rest2) =>
          if last_had_fraction then .error ParseError.DurationInvalidFraction
          else
            let lhf := last_had_fraction || op_fraction.isSome
            if got_t then
              match rest2 with
              | [] => .error ParseError.DurationInvalidTimeUnit
              | u :: rest3 =>
                match (if u = 72 then some 3600 else if u = 77 then some 60
                       else if u = 83 then some 1 else none) with
                | none => .error ParseError.DurationInvalidTimeUnit
                | some mult =>
                  let sec_acc : Except ParseError Nat :=
                    match checked_mul_u32 mult value with
                    | .error e => .error e
                    | .ok mv => checked_add_u32 second mv
                  match sec_acc with
                  | .error e => .error e
                  | .ok second1 =>
                    match op_fraction with
                    | none =>
                      Duration.parse_iso_loop fuel rest3 (pos1 + 1) got_t lhf day second1 microsecond
                    | some fraction =>
                      let extra_seconds := fmul fraction (mult : ℚ)
                      let extra_full_seconds := ftrunc extra_seconds
                      match checked_add_u32 second1 (f64_as_u32 extra_full_seconds) with
                      | .error e => .error e
                      | .ok second2 =>
                        let micro_extra :=
                          f64_as_u32 (fround (fmul (fsub extra_seconds extra_full_seconds) 1000000))
                        match checked_add_u32 microsecond micro_extra with
                        | .error e => .error e
                        | .ok microsecond1 =>
                          Duration.parse_iso_loop fuel rest3 (pos1 + 1) got_t lhf day second2 microsecond1
            else
              match rest2 with
              | [] => .error ParseError.DurationInvalidDateUnit
              | u :: rest3 =>
                match (if u = 89 then some 365 else if u = 77 then some 30
                       else if u = 87 then some 7 else if u = 68 then some 1 else none) with
                | none => .error ParseError.DurationInvalidDateUnit
                | some mult =>
                  let day_acc : Except ParseError Nat :=
                    match checked_mul_u32 value mult with
                    | .error e => .error e
                    | .ok vm => checked_add_u32 day vm
                  match day_acc with
                  | .error e => .error e
                  | .ok day1 =>
                    match op_fraction with
                    | none =>
                      Duration.parse_iso_loop fuel rest3 (pos1 + 1) got_t lhf day1 second microsecond
                    | some fraction =>
                      let extra_days := fmul fraction (mult : ℚ)
                      let extra_full_days := ftrunc extra_days
                      match checked_add_u32 day1 (f64_as_u32 extra_full_days) with
                      | .error e => .error e
                      | .ok day2 =>
                        let extra_seconds := fmul (fsub extra_days extra_full_days) 86400
                        let extra_full_seconds := ftrunc extra_seconds
                        match checked_add_u32 second (f64_as_u32 extra_full_seconds) with
                        | .error e => .error e
                        | .ok second1 =>
                          -- the microsecond addition on this path is unchecked u32 arithmetic
                          let microsecond1 :=
                            (microsecond + f64_as_u32 (fround (fmul (fsub extra_seconds extra_full_seconds) 1000000)))
                              % 4294967296
                          Duration.parse_iso_loop fuel rest3 (pos1 + 1) got_t lhf day2 second1 microsecond1

/-- Model of `Duration::parse_iso_duration` (duration.rs lines 351-424):
`rest` is the input after the leading `P`, `offset` its index. -/
def Duration.parse_iso_duration (rest : List Nat) (offset : Nat) : Except ParseError Duration :=
  match Duration.parse_iso_loop (rest.length + 1) rest offset false false 0 0 0 with
  | .error e => .error e
  | .ok (day, second, microsecond, position) =>
    if position < 3 then .error ParseError.TooShort
    else .ok ⟨false, day, second, microsecond⟩

/-- Model of `Duration::is_duration_date_format` (duration.rs lines 426-428). -/
def Duration.is_duration_date_format (bytes : List Nat) : Bool :=
  bytes.any (fun b => b = 100 || b = 68)

/-- Model of `Duration::parse_days_time` (duration.rs lines 430-505),
index-based like the source; the `rest` component returned by `parse_number`
is the suffix of `bytes` at the returned position. -/
def Duration.parse_days_time (bytes : List Nat) (offset : Nat) : Except ParseError Duration :=
  match bytes.get? offset with
  | none => .error ParseError.TooShort
  | some c =>
    match Duration.parse_number c (bytes.drop (offset + 1)) offset with
    | .error e => .error e
    | .ok (day, p0, _) =>
      let days_only : Except ParseError Duration := .ok ⟨false, day, 0, 0⟩
      let step_space : Except ParseError Nat :=
        match bytes.get? p0 with
        | some 32 => .ok (p0 + 1)
        | some 100 => .ok p0
        | some 68 => .ok p0
        | _ => .error ParseError.DurationInvalidDays
      match step_space with
      | .error e => .error e
      | .ok p1 =>
        let step_d : Except ParseError Nat :=
          match bytes.get? p1 with
          | some 100 => .ok (p1 + 1)
          | some 68 => .ok (p1 + 1)
          | _ => .error ParseError.DurationInvalidDays
        match step_d with
        | .error e => .error e
        | .ok p2 =>
          -- optionally consume the rest of the word "day/days"; `none` means
          -- the input ended and only days were given
          let step_word : Except ParseError (Option Nat) :=
            match bytes.get? p2 with
            | some 97 | some 65 =>
              match bytes.get? (p2 + 1) with
              | some 121 | some 89 =>
                match bytes.get? (p2 + 2) with
                | some 115 | some 83 => .ok (some (p2 + 3))
                | none => .ok none
                | some _ => .ok (some (p2 + 2))
              | _ => .error ParseError.DurationInvalidDays
            | none => .ok none
            | some _ => .ok (some p2)
          match step_word with
          | .error e => .error e
          | .ok none => days_only
          | .ok (some p3) =>
            let step_comma : Option Nat :=
              match bytes.get? p3 with
              | some 44 => some (p3 + 1)
              | none => none
              | some _ => some p3
            match step_comma with
            | none => days_only
            | some p4 =>
              let step_space2 : Option Nat :=
                match bytes.get? p4 with
                | some 32 => some (p4 + 1)
                | none => none
                | some _ => some p4
              match step_space2 with
              | none => days_only
              | some p5 =>
                match bytes.get? p5 with
                | none => days_only
                | some _ =>
                  match Time.parse_bytes_offset bytes p5 defaultTimeConfig with
                  | .error e => .error e
                  | .ok t =>
                    .ok ⟨false, day, t.hour * 3600 + t.minute * 60 + t.second, t.microsecond⟩

/-- Model of `Duration::parse_time` (duration.rs lines 507-567): the clock
form. `splitn(2, b':')` yields the hour chunk and the remainder; the rebuilt
buffer `new_bytes` is `"00:"` followed by the (possibly truncated)
remainder. -/
def Duration.parse_time (bytes : List Nat) (offset : Nat) (config : TimeConfig) :
    Except ParseError Duration :=
  if bytes.length - offset < 5 then .error ParseError.TooShort
  else
    let tail := bytes.drop offset
    let hour_part := tail.takeWhile (fun b => b ≠ 58)
    if hour_part.length = tail.length then .error ParseError.InvalidCharHour
    else
      let remaining := tail.drop (hour_part.length + 1)
      if 10 < hour_part.length then .error ParseError.DurationHourValueTooLarge
      else
        match hour_part.foldl
            (fun acc b => match acc with
              | none => none
              | some v => if isDigit b then some (v * 10 + (b - 48)) else none)
            (some 0) with
        | none => .error ParseError.InvalidCharHour
        | some hour =>
          if 2400000000 < hour then .error ParseError.DurationHourValueTooLarge
          else
            match (if 15 < 3 + remaining.length then
                     match config.microseconds_precision_overflow_behavior with
                     | MicrosecondsPrecisionOverflowBehavior.Truncate => .ok (remaining.take 12)
                     | MicrosecondsPrecisionOverflowBehavior.Error =>
                       .error ParseError.SecondFractionTooLong
                   else (.ok remaining : Except ParseError (List Nat))) with
            | .error e => .error e
            | .ok remaining1 =>
              let new_bytes := [48, 48, 58] ++ remaining1
              match PureTime.parse new_bytes 0 config with
              | .error e => .error e
              | .ok t =>
                if t.position < new_bytes.length then .error ParseError.ExtraCharacters
                else .ok ⟨false, hour / 24, t.total_seconds + hour % 24 * 3600, t.microsecond⟩

/-- Model of `Duration::parse_bytes_with_config` (duration.rs lines 292-313):
sign stripping, format dispatch, sign reattachment, normalization. -/
def Duration.parse_bytes_with_config (bytes : List Nat) (config : TimeConfig) :
    Except ParseError Duration :=
  match bytes with
  | [] => .error ParseError.TooShort
  | b0 :: rest0 =>
    let positive := b0 ≠ 45
    let offset : Nat := if b0 = 43 ∨ b0 = 45 then 1 else 0
    let rest := if b0 = 43 ∨ b0 = 45 then rest0 else bytes
    let parsed : Except ParseError Duration :=
      if rest.head? = some 80 then Duration.parse_iso_duration rest.tail (offset + 1)
      else
        if Duration.is_duration_date_format bytes || decide (bytes.length < 5) then
          Duration.parse_days_time bytes offset
        else Duration.parse_time bytes offset config
    match parsed with
    | .error e => .error e
    | .ok d => Duration.normalize ⟨positive, d.day, d.second, d.microsecond⟩

/-- Model of `Duration::parse_bytes` (duration.rs lines 263-265). -/
def Duration.parse_bytes (bytes : List Nat) : Except ParseError Duration :=
  Duration.parse_bytes_with_config bytes defaultTimeConfig

/-! ### The Display formatter of duration.rs (lines 57-96), as a byte list -/

/-- Decimal digits of a natural number, as Rust `write!("{n}")` renders it. -/
def natDigits (n : Nat) : List Nat :=
  if h : n < 10 then [48 + n]
  else natDigits (n / 10) ++ [48 + n % 10]
decreasing_by exact Nat.div_lt_self (by omega) (by norm_num)

/-- Rust `format!("{:06}", n)`: the decimal digits left-padded with zeros to
width six. -/
def pad6 (n : Nat) : List Nat :=
  List.replicate (6 - (natDigits n).length) 48 ++ natDigits n

/-- Rust `str::trim_end_matches('0')` on a digit string. -/
def trimTrailingZeros (l : List Nat) : List Nat :=
  (l.reverse.dropWhile (fun b => b = 48)).reverse

/-- Model of `impl fmt::Display for Duration` (duration.rs lines 57-96):
sign, `P`, years/days (365-day years), `T`, hours/minutes/seconds with a
trimmed six-digit fraction, and `T0S` for a zero magnitude. -/
def Duration.fmt (d : Duration) : List Nat :=
  (if d.positive then [] else [45]) ++ [80] ++
  (if d.day ≠ 0 then
     (if d.day / 365 ≠ 0 then natDigits (d.day / 365) ++ [89] else []) ++
     (if d.day % 365 ≠ 0 then natDigits (d.day % 365) ++ [68] else [])
   else []) ++
  (if d.second ≠ 0 ∨ d.microsecond ≠ 0 then
     [84] ++
     (if d.to_hms.1 ≠ 0 then natDigits d.to_hms.1 ++ [72] else []) ++
     (if d.to_hms.2.1 ≠ 0 then natDigits d.to_hms.2.1 ++ [77] else []) ++
     (if d.to_hms.2.2 ≠ 0 ∨ d.microsecond ≠ 0 then
        natDigits d.to_hms.2.2 ++
        (if d.microsecond ≠ 0 then 46 :: trimTrailingZeros (pad6 d.microsecond) else []) ++
        [83]
      else [])
   else []) ++
  (if d.second = 0 ∧ d.microsecond = 0 ∧ d.day = 0 then [84, 48, 83] else [])

/-! ### Specification-side definitions for the remaining claims -/

/-- The claim's description of `parse_float`, amended on the overflow
boundary: with the input an optional sign and then digits, the i64
accumulator wraps, and only a negative wrapped prefix value is detected as
overflow; when the scan stops at a dot the whole input goes to the external
lexical float parser; any other invalid byte is an error. -/
def claim_float_parse (s : List Nat) : IntFloat :=
  match s with
  | 45 :: first :: digits => claim_float_core s true first digits
  | 43 :: first :: digits => claim_float_core s false first digits
  | first :: digits => claim_float_core s false first digits
  | [] => IntFloat.Err
where
  claim_float_core (s : List Nat) (neg : Bool) (first : Nat) (digits : List Nat) : IntFloat :=
    if ¬ isDigit first then IntFloat.Err
    else
      let pre := digits.takeWhile isDigit
      if (List.range pre.length).any
          (fun k => decide (wrap64 (digitsValAccI ((first : Int) - 48) (pre.take (k + 1))) < 0)) then
        IntFloat.Err
      else
        match digits.dropWhile isDigit with
        | [] =>
          let v := wrap64 (digitsValAccI ((first : Int) - 48) pre)
          IntFloat.Int (if neg then -v else v)
        | c :: _ => if c = 46 then IntFloat.Float s else IntFloat.Err

/-- The days-path condition as the code applies it: a `d`/`D` byte anywhere
in the whole input, or the whole input (sign included) shorter than 5 bytes. -/
def code_days_condition (bytes : List Nat) : Prop :=
  (∃ b ∈ bytes, b = 100 ∨ b = 68) ∨ bytes.length < 5

/-- The days-path condition as the claim states it: a `d`/`D` byte in the
remaining input after the sign, or that remaining input shorter than 5
bytes. -/
def claim_days_condition (rest : List Nat) : Prop :=
  (∃ b ∈ rest, b = 100 ∨ b = 68) ∨ rest.length < 5

instance (bytes : List Nat) : Decidable (code_days_condition bytes) := by
  unfold code_days_condition; infer_instance

instance (rest : List Nat) : Decidable (claim_days_condition rest) := by
  unfold claim_days_condition; infer_instance

/-- Sign reattachment and normalization applied to a sub-parser result, as
the tail of `Duration::parse_bytes_with_config` performs it. -/
def duration_finalize (positive : Bool) (r : Except ParseError Duration) :
    Except ParseError Duration :=
  match r with
  | .error e => .error e
  | .ok d => Duration.normalize ⟨positive, d.day, d.second, d.microsecond⟩

/-- Days from 0000-01-01 to the start of year `y` under the source's
calendar arithmetic (the quantity `year * 365 + intervening_leap_years`). -/
def fdays (y : Nat) : Int := 365 * (y : Int) + intervening_leap_years (y : Int)

/-- The body of `Date::ordinal_day` with the leap flag made explicit. -/
def odAux (leap : Bool) (month day : Nat) : Nat :=
  let leap_extra := if leap then 1 else 0
  match month with
  | 1 => day
  | 2 => day + 31
  | 3 => day + 59 + leap_extra
  | 4 => day + 90 + leap_extra
  | 5 => day + 120 + leap_extra
  | 6 => day + 151 + leap_extra
  | 7 => day + 181 + leap_extra
  | 8 => day + 212 + leap_extra
  | 9 => day + 243 + leap_extra
  | 10 => day + 273 + leap_extra
  | 11 => day + 304 + leap_extra
  | _ => day + 334 + leap_extra

/-- The ordering on datetimes that the claim describes for the case with two
offsets: by `timestamp_tz()`, with the microsecond as tiebreaker. -/
def claim_dt_tz_cmp (a b : DateTime) : Ordering :=
  match compare a.timestamp_tz b.timestamp_tz with
  | Ordering.eq => compare a.time.microsecond b.time.microsecond
  | o => o

/-- The naive-case ordering on datetimes that the claim describes: the
derived lexicographic date comparison first, the time comparison as
tiebreaker. -/
def claim_dt_naive_cmp (a b : DateTime) : Option Ordering :=
  match Date.cmp a.date b.date with
  | some Ordering.eq => Time.cmp a.time b.time
  | o => o

/-- The sign-and-lexicographic ordering on durations that the claim
describes. -/
def claim_dur_cmp (d1 d2 : Duration) : Ordering :=
  match d1.positive, d2.positive with
  | true, false => Ordering.gt
  | false, true => Ordering.lt
  | true, true => durTripleCmp (d1.day, d1.second, d1.microsecond) (d2.day, d2.second, d2.microsecond)
  | false, false => (durTripleCmp (d1.day, d1.second, d1.microsecond) (d2.day, d2.second, d2.microsecond)).swap

/-! ### Helper definitions for the duration roundtrip claim -/

/-- Nat digit fold with explicit accumulator, for stating the
`Duration::parse_number` loop invariant. -/
def digitsValAcc (a : Nat) (ds : List Nat) : Nat :=
  ds.foldl (fun x c => 10 * x + (c - 48)) a

/-- The first byte of `rest`, if any, is not an ASCII digit. -/
def headNotDigit (rest : List Nat) : Prop :=
  ∀ c, rest.head? = some c → isDigit c = false

/-- The part of `Duration.fmt` after the `P`. -/
def fmtBody (d : Duration) : List Nat :=
  (if d.day ≠ 0 then
     (if d.day / 365 ≠ 0 then natDigits (d.day / 365) ++ [89] else []) ++
     (if d.day % 365 ≠ 0 then natDigits (d.day % 365) ++ [68] else [])
   else []) ++
  (if d.second ≠ 0 ∨ d.microsecond ≠ 0 then
     [84] ++
     (if d.to_hms.1 ≠ 0 then natDigits d.to_hms.1 ++ [72] else []) ++
     (if d.to_hms.2.1 ≠ 0 then natDigits d.to_hms.2.1 ++ [77] else []) ++
     (if d.to_hms.2.2 ≠ 0 ∨ d.microsecond ≠ 0 then
        natDigits d.to_hms.2.2 ++
        (if d.microsecond ≠ 0 then 46 :: trimTrailingZeros (pad6 d.microsecond) else []) ++
        [83]
      else [])
   else []) ++
  (if d.second = 0 ∧ d.microsecond = 0 ∧ d.day = 0 then [84, 48, 83] else [])

/-! ## Lemmas: calendar arithmetic for claim C2 -/


theorem ily_cast (y : Nat) :
    intervening_leap_years (y : Int) =
      (if y = 0 then 0 else ((y : Int) - 1) / 4 - ((y : Int) - 1) / 100 + ((y : Int) - 1) / 400 + 1) := by
  unfold intervening_leap_years
  rcases Nat.eq_zero_or_pos y with h | h
  · subst h; simp
  · have h0 : ¬((y : Int) = 0) := by omega
    have hn0 : ¬(y = 0) := by omega
    rw [if_neg h0, if_neg hn0,
      Int.tdiv_eq_ediv (by omega) (by norm_num),
      Int.tdiv_eq_ediv (by omega) (by norm_num),
      Int.tdiv_eq_ediv (by omega) (by norm_num)]

theorem ily_nonneg (y : Nat) : 0 ≤ intervening_leap_years (y : Int) := by
  rw [ily_cast]
  rcases Nat.eq_zero_or_pos y with h | h
  · simp [h]
  · have hn0 : ¬(y = 0) := by omega
    rw [if_neg hn0]
    have h1 : (1 : Int) ≤ (y : Int) := by exact_mod_cast h
    omega

theorem fdays_step (y : Nat) :
    fdays (y + 1) = fdays y + (if is_leap_year y then 366 else 365) := by
  rcases Nat.eq_zero_or_pos y with h | h
  · subst h; decide
  · unfold fdays
    rw [ily_cast, ily_cast]
    have hn0 : ¬(y = 0) := by omega
    have hn1 : ¬(y + 1 = 0) := by omega
    rw [if_neg hn0, if_neg hn1]
    have h1 : (1 : Int) ≤ (y : Int) := by exact_mod_cast h
    unfold is_leap_year
    by_cases h100 : y % 100 = 0
    · by_cases h400 : y % 400 = 0
      · simp only [if_pos h100, beq_iff_eq, if_pos h400]
        push_cast
        omega
      · simp only [if_pos h100, beq_iff_eq, if_neg h400]
        push_cast
        omega
    · by_cases h4 : y % 4 = 0
      · simp only [if_neg h100, beq_iff_eq, if_pos h4]
        push_cast
        omega
      · simp only [if_neg h100, beq_iff_eq, if_neg h4]
        push_cast
        omega

theorem from_ts_loop_spec (n : Int) (hn : 0 ≤ n) :
    ∀ (y : Nat) (o : Int), o = n - fdays y + 1 → n < fdays (y + 1) →
      (from_ts_loop y o).2 = n - fdays (from_ts_loop y o).1 + 1 ∧
      1 ≤ (from_ts_loop y o).2 ∧
      (from_ts_loop y o).2 ≤ (if is_leap_year (from_ts_loop y o).1 then 366 else 365) := by
  intro y
  induction y with
  | zero =>
    intro o ho hlt
    have hf0 : fdays 0 = 0 := by unfold fdays; rw [ily_cast]; simp
    have hf1 : fdays 1 = 366 := by
      have := fdays_step 0
      rw [hf0] at this
      simpa [is_leap_year] using this
    rw [hf1] at hlt
    rw [hf0] at ho
    simp only [from_ts_loop, hf0]
    refine ⟨by omega, by omega, ?_⟩
    have hl : is_leap_year 0 = true := rfl
    simp [hl]
    omega
  | succ k ih =>
    intro o ho hlt
    by_cases hoc : o < 1
    · rw [from_ts_loop, if_pos hoc]
      have hstep : fdays (k + 1) = fdays k + (if is_leap_year k then 366 else 365) :=
        fdays_step k
      apply ih
      · omega
      · omega
    · rw [from_ts_loop, if_neg hoc]
      have hstep : fdays (k + 2) = fdays (k + 1) + (if is_leap_year (k + 1) then 366 else 365) :=
        fdays_step (k + 1)
      refine ⟨ho, by omega, ?_⟩
      cases hL : is_leap_year (k + 1) <;> rw [hL] at hstep <;> simp_all <;> omega


theorem ordinal_day_odAux (y m d : Nat) :
    Date.ordinal_day ⟨y, m, d⟩ = odAux (is_leap_year y) m d := rfl

set_option maxRecDepth 8000 in
theorem leap_table_inv : ∀ o : Nat, o < 367 → 1 ≤ o →
    odAux true (leap_year_month_day (o : Int)).1 (leap_year_month_day (o : Int)).2 = o := by
  decide

set_option maxRecDepth 8000 in
theorem common_table_inv : ∀ o : Nat, o < 366 → 1 ≤ o →
    odAux false (common_year_month_day (o : Int)).1 (common_year_month_day (o : Int)).2 = o := by
  decide

theorem from_timestamp_calc_timestamp (t : Int) (h1 : UNIX_0000 ≤ t) (h2 : t ≤ UNIX_9999) :
    (Date.from_timestamp_calc t).map (fun p => p.1.timestamp) = .ok (t - t % 86400) := by
  have hlt1 : ¬(t < UNIX_0000) := by unfold UNIX_0000 at *; omega
  have hlt2 : ¬(UNIX_9999 < t) := by unfold UNIX_9999 UNIX_0000 at *; omega
  have hs0 : (0 : Int) ≤ t - UNIX_0000 := by unfold UNIX_0000 at *; omega
  set s : Int := t - UNIX_0000 with hs
  set n : Int := s / 86400 with hn
  have hn0 : (0 : Int) ≤ n := by
    rw [hn]; exact Int.ediv_nonneg hs0 (by norm_num)
  have htd1 : s.tdiv 86400 = n := Int.tdiv_eq_ediv hs0 (by norm_num)
  have htd2 : n.tdiv 365 = n / 365 := Int.tdiv_eq_ediv hn0 (by norm_num)
  have htm2 : n.tmod 365 = n % 365 := Int.tmod_eq_emod hn0 (by norm_num)
  set Y : Nat := (n / 365).toNat with hY
  have hYc : (Y : Int) = n / 365 := by
    rw [hY]; exact Int.toNat_of_nonneg (Int.ediv_nonneg hn0 (by norm_num))
  set o0 : Int := n % 365 - intervening_leap_years (n / 365) + 1 with ho0def
  have ho0 : o0 = n - fdays Y + 1 := by
    rw [ho0def]; unfold fdays; rw [hYc]; omega
  have hbound : n < fdays (Y + 1) := by
    have hstep := fdays_step Y
    have hfY : fdays Y = 365 * (n / 365) + intervening_leap_years (n / 365) := by
      unfold fdays; rw [hYc]
    have hilyY : 0 ≤ intervening_leap_years (n / 365) := by
      have := ily_nonneg Y; rwa [hYc] at this
    have hite : (365 : Int) ≤ (if is_leap_year Y then 366 else 365) := by
      split <;> norm_num
    omega
  have hloop := from_ts_loop_spec n hn0 Y o0 ho0 hbound
  set y1 : Nat := (from_ts_loop Y o0).1 with hy1
  set o1 : Int := (from_ts_loop Y o0).2 with ho1
  obtain ⟨hinv, hge1, hle⟩ := hloop
  have ho1nat : ((o1.toNat : Int)) = o1 := Int.toNat_of_nonneg (by omega)
  -- the month/day table inverts the ordinal
  have hord : odAux (is_leap_year y1)
      ((if is_leap_year y1 then leap_year_month_day o1 else common_year_month_day o1).1)
      ((if is_leap_year y1 then leap_year_month_day o1 else common_year_month_day o1).2)
      = o1.toNat := by
    cases hL : is_leap_year y1 with
    | true =>
      rw [hL] at hle
      norm_num at hle
      simp only [if_true]
      have h367 : o1.toNat < 367 := by omega
      have hge : 1 ≤ o1.toNat := by omega
      have := leap_table_inv o1.toNat h367 hge
      rw [ho1nat] at this
      exact this
    | false =>
      rw [hL] at hle
      norm_num at hle
      simp only [Bool.false_eq_true, if_false]
      have h366 : o1.toNat < 366 := by omega
      have hge : 1 ≤ o1.toNat := by omega
      have := common_table_inv o1.toNat h366 hge
      rw [ho1nat] at this
      exact this
  have hcalc : Date.from_timestamp_calc t =
      .ok (⟨y1,
        (if is_leap_year y1 then leap_year_month_day o1 else common_year_month_day o1).1,
        (if is_leap_year y1 then leap_year_month_day o1 else common_year_month_day o1).2⟩,
        (t % 86400).toNat) := by
    unfold Date.from_timestamp_calc
    rw [if_neg hlt1, if_neg hlt2]
    simp only [← hs, htd1, htd2, htm2, ← hn, ← ho0def, ← hY, ← hy1, ← ho1]
    rfl
  rw [hcalc]
  simp only [Except.map]
  congr 1
  -- timestamp of the computed date equals n * 86400 + UNIX_0000 = t - t % 86400
  unfold Date.timestamp
  dsimp only
  rw [ordinal_day_odAux, hord, ho1nat]
  unfold fdays at hinv
  have hfin : (86400 : Int) ∣ UNIX_0000 := by decide
  obtain ⟨k, hk⟩ := hfin
  omega

/-- C2: for every second count t in [UNIX_0000, UNIX_9999], converting t to
a Date with `Date::from_timestamp` (require_exact = false, seconds unit) and
taking that Date's `timestamp()` yields exactly t - (t mod 86400) with the
Euclidean (always non-negative) remainder. -/
theorem claim_C2_from_timestamp_roundtrip (t : Int) (h1 : UNIX_0000 ≤ t) (h2 : t ≤ UNIX_9999) :
    (Date.from_timestamp t false ⟨TimestampUnit.Second⟩).map Date.timestamp
      = .ok (t - t % 86400) := by
  have h := from_timestamp_calc_timestamp t h1 h2
  cases hres : Date.from_timestamp_calc t with
  | error e => rw [hres] at h; simp [Except.map] at h
  | ok p =>
    obtain ⟨d, rem⟩ := p
    rw [hres] at h
    simp only [Except.map] at h
    unfold Date.from_timestamp
    simp only [timestamp_to_seconds_micros]
    rw [hres]
    have hcond : ¬(false = true ∧ (rem ≠ 0 ∨ (0:Nat) ≠ 0)) := by simp
    dsimp only
    rw [if_neg hcond]
    simp only [Except.map]
    injection h with h
    rw [h]

/-! ## Claims C1, C3, C6, C7, C9, C10 -/
theorem int_neg_tmod (a b : Int) : (-a).tmod b = -(a.tmod b) := by
  have h1 := Int.tmod_add_tdiv a b
  have h2 := Int.tmod_add_tdiv (-a) b
  rw [Int.neg_tdiv] at h2
  linear_combination h1 + h2

theorem tmod_char (t b : Int) (hb : 0 < b) :
    -b < t.tmod b ∧ t.tmod b < b ∧ (0 ≤ t → 0 ≤ t.tmod b) ∧ (t < 0 → t.tmod b ≤ 0) := by
  rcases le_or_lt 0 t with h | h
  · have h1 := Int.tmod_nonneg b h
    have h2 := Int.tmod_lt_of_pos t hb
    exact ⟨by omega, h2, fun _ => h1, fun hc => absurd hc (by omega)⟩
  · have hn : (0 : Int) ≤ -t := by omega
    have h1 := Int.tmod_nonneg b hn
    have h2 := Int.tmod_lt_of_pos (-t) hb
    rw [int_neg_tmod] at h1 h2
    exact ⟨by omega, by omega, fun hc => absurd hc (by omega), fun _ => by omega⟩

/-- C1 (amended): for every i64 value other than i64::MIN, the watershed
helper returns the seconds interpretation `(t, 0)` when `abs t` is at most
2e10, and otherwise the milliseconds interpretation with floor-division
semantics: seconds `t / 1000` rounding toward negative infinity and
microseconds the non-negative Euclidean remainder scaled by 1000. At
i64::MIN itself, `checked_abs` fails and the helper returns `DateTooSmall`. -/
theorem claim_C1_watershed (t : Int) (hlo : i64min ≤ t) (hhi : t ≤ i64max) (hne : t ≠ i64min) :
    timestamp_watershed t =
      (if |t| ≤ MS_WATERSHED then .ok (t, 0)
       else .ok (t / 1000, ((t % 1000) * 1000).toNat)) := by
  unfold timestamp_watershed checked_abs_i64
  rw [if_neg hne]
  dsimp only
  by_cases habs : |t| ≤ MS_WATERSHED
  · rw [if_pos habs, if_pos habs]
  · rw [if_neg habs, if_neg habs]
    have hm := Int.tmod_add_tdiv t 1000
    obtain ⟨hb1, hb2, hb3, hb4⟩ := tmod_char t 1000 (by norm_num)
    by_cases hneg : t.tmod 1000 * 1000 < 0
    · rw [if_pos hneg]
      have hq : t.tdiv 1000 - 1 = t / 1000 := by omega
      have hr : t.tmod 1000 * 1000 + 1000000 = (t % 1000) * 1000 := by omega
      rw [hq, hr]
    · rw [if_neg hneg]
      have hq : t.tdiv 1000 = t / 1000 := by omega
      have hr : t.tmod 1000 * 1000 = (t % 1000) * 1000 := by omega
      rw [hq, hr]

/-- C1 counterexample: at i64::MIN the claim's milliseconds interpretation
does not hold; the helper returns `DateTooSmall` instead. -/
theorem claim_C1_cex :
    timestamp_watershed (-9223372036854775808) = .error ParseError.DateTooSmall ∧
    (Except.error ParseError.DateTooSmall : Except ParseError (Int × Nat)) ≠
      .ok ((-9223372036854775808 : Int) / 1000,
        (((-9223372036854775808 : Int) % 1000) * 1000).toNat) := by
  exact ⟨by decide, by decide⟩

/-- C1 witness: the amended statement applied at the concrete millisecond
timestamp -20000000001. -/
theorem claim_C1_witness :
    (i64min ≤ (-20000000001 : Int) ∧ (-20000000001 : Int) ≤ i64max ∧ (-20000000001 : Int) ≠ i64min) ∧
    timestamp_watershed (-20000000001) =
      (if |(-20000000001 : Int)| ≤ MS_WATERSHED then .ok (-20000000001, 0)
       else .ok ((-20000000001 : Int) / 1000, ((((-20000000001 : Int)) % 1000) * 1000).toNat)) :=
  ⟨⟨by decide, by decide, by decide⟩,
    claim_C1_watershed (-20000000001) (by decide) (by decide) (by decide)⟩

/-- C3: the tz-offset invariant is violated by `Time::in_timezone`: starting
from the parseable time `15:00:00+23:59` (offset 86340 seconds), requesting
the in-range offset -86340 produces a time whose stored `tz_offset` is the
difference -172680, outside the documented ±86400 range. -/
theorem claim_C3_in_timezone_offset_escape :
    Time.parse_bytes (strBytes "15:00:00+23:59") = .ok ⟨15, 0, 0, 0, some 86340⟩ ∧
    |(-86340 : Int)| < 86400 ∧
    Time.in_timezone ⟨15, 0, 0, 0, some 86340⟩ (-86340) = .ok ⟨0, 0, 0, 0, some (-172680)⟩ ∧
    ¬(|(-172680 : Int)| < 86400) := by
  refine ⟨by decide, by decide, by decide, by decide⟩

/-- C10: on the human-days path, the clock-style remainder is parsed with a
freshly built default `TimeConfig`: the seventh fractional-second digit of
`1d 00:00:00.1234567` is rejected with `SecondFractionTooLong` although the
caller's config asks for truncation, while the same fraction on the
clock-style path is truncated under that config. -/
theorem claim_C10_days_path_fresh_config :
    Duration.parse_bytes_with_config (strBytes "1d 00:00:00.1234567")
        ⟨MicrosecondsPrecisionOverflowBehavior.Truncate, none⟩
      = .error ParseError.SecondFractionTooLong ∧
    Duration.parse_bytes_with_config (strBytes "00:00:00.1234567")
        ⟨MicrosecondsPrecisionOverflowBehavior.Truncate, none⟩
      = .ok ⟨true, 0, 0, 123456⟩ := by
  refine ⟨by decide, by decide⟩

theorem nat_compare_swap (a b : Nat) : compare b a = (compare a b).swap := by
  rcases lt_trichotomy a b with h | h | h
  · simp [compare_lt_iff_lt.2 h, compare_gt_iff_gt.2 h, Ordering.swap]
  · simp [h, compare_eq_iff_eq.2 (rfl : b = b), Ordering.swap]
  · simp [compare_lt_iff_lt.2 h, compare_gt_iff_gt.2 h, Ordering.swap]

theorem durTripleCmp_swap (a b : Nat × Nat × Nat) : durTripleCmp b a = (durTripleCmp a b).swap := by
  unfold durTripleCmp
  rw [Ordering.swap_then, Ordering.swap_then, nat_compare_swap a.1 b.1,
    nat_compare_swap a.2.1 b.2.1, nat_compare_swap a.2.2 b.2.2]

/-- C7: duration comparison orders by sign first (every positive duration
is greater than every negative one); two positive durations compare
lexicographically on (day, second, microsecond); for two negative durations
that order is reversed. In particular `+P1D > -P2D` and `-P2D < -P1D`. -/
theorem claim_C7_duration_ordering :
    (∀ d1 d2 : Duration, Duration.cmp d1 d2 = some (claim_dur_cmp d1 d2)) ∧
    Duration.parse_bytes (strBytes "+P1D") = .ok ⟨true, 1, 0, 0⟩ ∧
    Duration.parse_bytes (strBytes "-P2D") = .ok ⟨false, 2, 0, 0⟩ ∧
    Duration.parse_bytes (strBytes "-P1D") = .ok ⟨false, 1, 0, 0⟩ ∧
    Duration.cmp ⟨true, 1, 0, 0⟩ ⟨false, 2, 0, 0⟩ = some Ordering.gt ∧
    Duration.cmp ⟨false, 2, 0, 0⟩ ⟨false, 1, 0, 0⟩ = some Ordering.lt := by
  refine ⟨?_, by decide, by decide, by decide, by decide, by decide⟩
  intro d1 d2
  unfold Duration.cmp claim_dur_cmp
  cases h1 : d1.positive <;> cases h2 : d2.positive
  · exact congrArg some (durTripleCmp_swap
      (d1.day, d1.second, d1.microsecond) (d2.day, d2.second, d2.microsecond))
  · rfl
  · rfl
  · rfl

/-- C9: datetime comparison uses `timestamp_tz()` with the microsecond as
tiebreaker when both operands carry an offset, and the lexicographic
(date, time) comparison when at least one is naive; equality is strict
structural equality, so `2000-01-01T15:00:00Z` and
`2000-01-01T16:00:00+01:00` denote the same instant (equal `timestamp_tz`,
comparison `eq`) yet are not equal values. -/
theorem claim_C9_datetime_ordering :
    (∀ a b : DateTime, ∀ x y : Int, a.time.tz_offset = some x → b.time.tz_offset = some y →
      DateTime.cmp a b = some (claim_dt_tz_cmp a b)) ∧
    (∀ a b : DateTime, a.time.tz_offset = none ∨ b.time.tz_offset = none →
      DateTime.cmp a b = claim_dt_naive_cmp a b) ∧
    DateTime.parse_bytes_rfc3339 (strBytes "2000-01-01T15:00:00Z")
      = .ok ⟨⟨2000, 1, 1⟩, ⟨15, 0, 0, 0, some 0⟩⟩ ∧
    DateTime.parse_bytes_rfc3339 (strBytes "2000-01-01T16:00:00+01:00")
      = .ok ⟨⟨2000, 1, 1⟩, ⟨16, 0, 0, 0, some 3600⟩⟩ ∧
    DateTime.timestamp_tz ⟨⟨2000, 1, 1⟩, ⟨15, 0, 0, 0, some 0⟩⟩
      = DateTime.timestamp_tz ⟨⟨2000, 1, 1⟩, ⟨16, 0, 0, 0, some 3600⟩⟩ ∧
    DateTime.cmp ⟨⟨2000, 1, 1⟩, ⟨15, 0, 0, 0, some 0⟩⟩ ⟨⟨2000, 1, 1⟩, ⟨16, 0, 0, 0, some 3600⟩⟩
      = some Ordering.eq ∧
    (⟨⟨2000, 1, 1⟩, ⟨15, 0, 0, 0, some 0⟩⟩ : DateTime)
      ≠ ⟨⟨2000, 1, 1⟩, ⟨16, 0, 0, 0, some 3600⟩⟩ := by
  refine ⟨?_, ?_, by decide, by decide, by decide, by decide, by decide⟩
  · intro a b x y hx hy
    unfold DateTime.cmp claim_dt_tz_cmp
    rw [hx, hy]
    rcases hcm : compare a.timestamp_tz b.timestamp_tz <;> simp [hcm]
  · intro a b h
    unfold DateTime.cmp claim_dt_naive_cmp
    rcases ha : a.time.tz_offset with _ | x <;> rcases hb : b.time.tz_offset with _ | y
    · rfl
    · rfl
    · rfl
    · rcases h with h | h
      · rw [ha] at h; exact absurd h (by simp)
      · rw [hb] at h; exact absurd h (by simp)

/-- The days-path condition of the code in propositional form. -/
theorem is_duration_date_format_iff (bytes : List Nat) :
    (Duration.is_duration_date_format bytes || decide (bytes.length < 5)) = true
      ↔ code_days_condition bytes := by
  unfold Duration.is_duration_date_format code_days_condition
  rw [Bool.or_eq_true, List.any_eq_true]
  constructor
  · rintro (⟨b, hb, hp⟩ | h)
    · left; exact ⟨b, hb, by simpa using hp⟩
    · right; simpa using h
  · rintro (⟨b, hb, hp⟩ | h)
    · left; exact ⟨b, hb, by simpa using hp⟩
    · right; simpa using h

/-- C6 (amended): after the optional sign, a leading `P` selects the ISO
path; otherwise the human-days path is selected exactly when the whole
input (sign included) contains a `d`/`D` byte or is shorter than 5 bytes,
and the clock path is selected in all other cases. -/
theorem claim_C6_dispatch_amended :
    Duration.parse_bytes_with_config [] defaultTimeConfig = .error ParseError.TooShort ∧
    ∀ (config : TimeConfig) (b0 : Nat) (rest0 : List Nat),
      Duration.parse_bytes_with_config (b0 :: rest0) config =
        (let bytes := b0 :: rest0
         let positive := b0 ≠ 45
         let offset : Nat := if b0 = 43 ∨ b0 = 45 then 1 else 0
         let rest := if b0 = 43 ∨ b0 = 45 then rest0 else bytes
         if rest.head? = some 80 then
           duration_finalize positive (Duration.parse_iso_duration rest.tail (offset + 1))
         else if code_days_condition bytes then
           duration_finalize positive (Duration.parse_days_time bytes offset)
         else duration_finalize positive (Duration.parse_time bytes offset config)) := by
  refine ⟨rfl, ?_⟩
  intro config b0 rest0
  unfold Duration.parse_bytes_with_config duration_finalize
  dsimp only
  by_cases hP : (if b0 = 43 ∨ b0 = 45 then rest0 else b0 :: rest0).head? = some 80
  · rw [if_pos hP, if_pos hP]
  · rw [if_neg hP, if_neg hP]
    by_cases hd : code_days_condition (b0 :: rest0)
    · rw [if_pos ((is_duration_date_format_iff (b0 :: rest0)).2 hd), if_pos hd]
    · rw [if_neg (fun hc => hd ((is_duration_date_format_iff (b0 :: rest0)).1 hc)), if_neg hd]

/-- C6 counterexample: on the input `+1:23` the claim's condition (the
remaining input after the sign is shorter than 5 bytes) selects the
human-days path, but the code measures the whole input (5 bytes) and takes
the clock path: the observable results differ (`TooShort` from the clock
path against `DurationInvalidDays` from the days path). -/
theorem claim_C6_cex :
    claim_days_condition (strBytes "1:23") ∧
    Duration.parse_bytes_with_config (strBytes "+1:23") defaultTimeConfig
      = .error ParseError.TooShort ∧
    duration_finalize true (Duration.parse_days_time (strBytes "+1:23") 1)
      = .error ParseError.DurationInvalidDays ∧
    ParseError.TooShort ≠ ParseError.DurationInvalidDays := by
  refine ⟨Or.inr (by decide), by decide, by decide, by decide⟩

/-! ## Claim C4: int_parse_bytes -/

theorem digitsValAccI_cons (a : Int) (d : Nat) (rest : List Nat) :
    digitsValAccI a (d :: rest) = digitsValAccI (10 * a + ((d : Int) - 48)) rest := rfl

theorem digitsValAccI_ge (ds : List Nat) : ∀ a : Int, 0 ≤ a → ds.all isDigit = true →
    a ≤ digitsValAccI a ds := by
  induction ds with
  | nil => intro a _ _; exact le_refl a
  | cons d rest ih =>
    intro a ha hall
    rw [List.all_cons, Bool.and_eq_true] at hall
    have hd : 48 ≤ d ∧ d ≤ 57 := by
      have := hall.1; unfold isDigit at this; simp at this; exact this
    rw [digitsValAccI_cons]
    have h1 : a ≤ 10 * a + ((d : Int) - 48) := by omega
    have h2 : (0 : Int) ≤ 10 * a + ((d : Int) - 48) := by omega
    exact le_trans h1 (ih _ h2 hall.2)

theorem int_parse_loop_spec (ds : List Nat) : ∀ a : Int, 0 ≤ a → a ≤ i64max →
    int_parse_loop a ds =
      (if ds.all isDigit = true ∧ digitsValAccI a ds ≤ i64max
       then some (digitsValAccI a ds) else none) := by
  induction ds with
  | nil =>
    intro a ha ha2
    simp [int_parse_loop, digitsValAccI, ha2]
  | cons d rest ih =>
    intro a ha ha2
    rw [int_parse_loop]
    unfold checked_mul_i64
    have hnotlo : ¬(a * 10 < i64min) := by unfold i64min; omega
    rw [digitsValAccI_cons]
    by_cases hov : i64max < a * 10
    · rw [if_pos (Or.inr hov)]
      by_cases hd : isDigit d = true ∧ rest.all isDigit = true
      · have h48 : 48 ≤ d ∧ d ≤ 57 := by
          have := hd.1; unfold isDigit at this; simp at this; exact this
        have hge : 10 * a + ((d : Int) - 48) ≤ digitsValAccI (10 * a + ((d : Int) - 48)) rest :=
          digitsValAccI_ge rest _ (by omega) hd.2
        rw [if_neg]
        rintro ⟨h1, h2⟩
        omega
      · rw [if_neg]
        rintro ⟨h1, h2⟩
        rw [List.all_cons, Bool.and_eq_true] at h1
        exact hd h1
    · rw [if_neg (by tauto)]
      dsimp only
      by_cases hd0 : d = 48
      · subst hd0
        rw [if_pos rfl]
        have h0 : ((48 : Nat) : Int) - 48 = 0 := by norm_num
        rw [h0, add_zero]
        have := ih (a * 10) (by omega) (by omega)
        rw [this, mul_comm a 10]
        have hd48 : isDigit 48 = true := rfl
        simp [hd48]
      · rw [if_neg hd0]
        by_cases hd : 49 ≤ d ∧ d ≤ 57
        · rw [if_pos hd]
          unfold checked_add_i64
          have hnotlo2 : ¬(a * 10 + ((d : Int) - 48) < i64min) := by unfold i64min; omega
          by_cases hov2 : i64max < a * 10 + ((d : Int) - 48)
          · rw [if_pos (Or.inr hov2)]
            by_cases hrest : rest.all isDigit = true
            · have hge : 10 * a + ((d : Int) - 48) ≤ digitsValAccI (10 * a + ((d : Int) - 48)) rest :=
                digitsValAccI_ge rest _ (by omega) hrest
              rw [if_neg]
              rintro ⟨h1, h2⟩
              omega
            · rw [if_neg]
              rintro ⟨h1, h2⟩
              rw [List.all_cons, Bool.and_eq_true] at h1
              exact hrest h1.2
          · rw [if_neg (by tauto)]
            dsimp only
            have := ih (a * 10 + ((d : Int) - 48)) (by omega) (by omega)
            rw [this, mul_comm a 10]
            have hdd : isDigit d = true := by unfold isDigit; simp; omega
            simp [hdd]
        · rw [if_neg hd]
          rw [if_neg]
          rintro ⟨h1, h2⟩
          rw [List.all_cons, Bool.and_eq_true] at h1
          have := h1.1
          unfold isDigit at this
          simp at this
          omega

theorem digitsVal_cast (ds : List Nat) : ∀ a : Nat, ds.all isDigit = true →
    ((List.foldl (fun x c => 10 * x + (c - 48)) a ds : Nat) : Int) = digitsValAccI (a : Int) ds := by
  induction ds with
  | nil => intro a _; rfl
  | cons d rest ih =>
    intro a hall
    rw [List.all_cons, Bool.and_eq_true] at hall
    have h48 : 48 ≤ d := by
      have := hall.1; unfold isDigit at this; simp at this; omega
    rw [List.foldl_cons, digitsValAccI_cons, ih (10 * a + (d - 48)) hall.2]
    congr 1
    push_cast [h48]
    ring

theorem int_parse_signed_spec (neg : Bool) (first : Nat) (digits : List Nat) :
    int_parse_bytes.int_parse_signed neg first digits =
      (if (first :: digits) ≠ [] ∧ (first :: digits).all isDigit = true
          ∧ (digitsVal (first :: digits) : Int) ≤ i64max
       then some (if neg then -(digitsVal (first :: digits) : Int) else (digitsVal (first :: digits) : Int))
       else none) := by
  unfold int_parse_bytes.int_parse_signed
  have hne : (first :: digits) ≠ [] := by simp
  by_cases hfd : isDigit first = true
  · have h48 : 48 ≤ first ∧ first ≤ 57 := by
      unfold isDigit at hfd; simp at hfd; exact hfd
    have hdv : (digitsVal (first :: digits) : Int)
        = digitsValAccI ((first : Int) - 48) digits ∨ ¬(digits.all isDigit = true) := by
      by_cases hall : digits.all isDigit = true
      · left
        unfold digitsVal
        rw [List.foldl_cons]
        have := digitsVal_cast digits (10 * 0 + (first - 48)) hall
        rw [this]
        congr 1
        push_cast [h48.1]
        ring
      · right; exact hall
    have hacc : (if first = 48 then some (0 : Int)
        else if 49 ≤ first ∧ first ≤ 57 then some ((first : Int) - 48) else none)
        = some ((first : Int) - 48) := by
      by_cases h0 : first = 48
      · subst h0; norm_num
      · rw [if_neg h0, if_pos (by omega)]
    rw [hacc]
    dsimp only
    rcases hdv with hdv | hnall
    · rw [int_parse_loop_spec digits ((first : Int) - 48) (by omega) (by unfold i64max; omega)]
      by_cases hall : digits.all isDigit = true ∧ digitsValAccI ((first : Int) - 48) digits ≤ i64max
      · rw [if_pos hall, if_pos ⟨hne, by simp [hfd, hall.1], by rw [hdv]; exact hall.2⟩]
        rw [hdv]
        cases neg <;> rfl
      · rw [if_neg hall, if_neg]
        rintro ⟨_, h2, h3⟩
        rw [List.all_cons, Bool.and_eq_true] at h2
        rw [hdv] at h3
        exact hall ⟨h2.2, h3⟩
    · rw [int_parse_loop_spec digits ((first : Int) - 48) (by omega) (by unfold i64max; omega)]
      rw [if_neg (fun hc => hnall hc.1), if_neg]
      rintro ⟨_, h2, _⟩
      rw [List.all_cons, Bool.and_eq_true] at h2
      exact hnall h2.2
  · have hr0 : (if first = 48 then some (0 : Int)
        else if 49 ≤ first ∧ first ≤ 57 then some ((first : Int) - 48) else none) = none := by
      unfold isDigit at hfd
      simp at hfd
      rw [if_neg (by omega), if_neg (by omega)]
    rw [hr0]
    dsimp only
    rw [if_neg]
    rintro ⟨_, h2, _⟩
    rw [List.all_cons, Bool.and_eq_true] at h2
    exact hfd h2.1

/-- C4 (amended): `int_parse_bytes` returns `some v` exactly when the input
is an optional leading sign followed by one or more ASCII digits and
nothing else, whose magnitude is at most i64::MAX; i64::MIN itself is
rejected, because the magnitude is accumulated positively with checked
arithmetic and negated only at the end. -/
theorem claim_C4_int_parse : ∀ s : List Nat, int_parse_bytes s = claim_int_parse s := by
  intro s
  rcases s with _ | ⟨c, rest⟩
  · rfl
  by_cases h45 : c = 45
  · subst h45
    rcases rest with _ | ⟨first, digits⟩
    · decide
    · show int_parse_bytes.int_parse_signed true first digits = _
      rw [int_parse_signed_spec]
      rfl
  · by_cases h43 : c = 43
    · subst h43
      rcases rest with _ | ⟨first, digits⟩
      · decide
      · show int_parse_bytes.int_parse_signed false first digits = _
        rw [int_parse_signed_spec]
        rfl
    · unfold int_parse_bytes claim_int_parse
      split
      · next heq => injection heq with h1 _; exact absurd h1 h45
      · next heq => injection heq with h1 _; exact absurd h1 h43
      · next first digits heq =>
          injection heq with h1 h2
          subst h1; subst h2
          split
          · next heq2 => injection heq2 with h1 _; exact absurd h1 h45
          · next heq2 => injection heq2 with h1 _; exact absurd h1 h43
          · rw [int_parse_signed_spec]
            simp
      · next heq => exact (List.noConfusion heq)

/-- C4 counterexample: the claim says "-9223372036854775808" (i64::MIN) is
accepted via a wrap-then-check-negative guard, but `int_parse_bytes` uses
checked multiplication and addition on a positive accumulator, so i64::MIN
is rejected. -/
theorem claim_C4_cex :
    int_parse_bytes (strBytes "-9223372036854775808") = none ∧
    strBytes "-9223372036854775808" = 45 :: strBytes "9223372036854775808" ∧
    (strBytes "9223372036854775808").all isDigit = true ∧
    -((digitsVal (strBytes "9223372036854775808") : Int)) = i64min := by
  refine ⟨by decide, by decide, by decide, by decide⟩

/-! ## Claim C5: float_parse_bytes -/

theorem wrap_step (e a dv : Int) (ha : a = wrap64 e) :
    wrap64 (wrap64 (a * 10) + dv) = wrap64 (10 * e + dv) := by
  unfold wrap64 at *
  omega

theorem wrap64_id (x : Int) (h1 : -9223372036854775808 ≤ x) (h2 : x < 9223372036854775808) :
    wrap64 x = x := by
  unfold wrap64
  omega

theorem float_loop_spec (digits : List Nat) : ∀ (s : List Nat) (e a : Int),
    a = wrap64 e → 0 ≤ a →
    float_parse_loop s a digits =
      (if (List.range (digits.takeWhile isDigit).length).any
          (fun k => decide (wrap64 (digitsValAccI e ((digits.takeWhile isDigit).take (k + 1))) < 0))
       then IntFloat.Err
       else
         match digits.dropWhile isDigit with
         | [] => IntFloat.Int (wrap64 (digitsValAccI e (digits.takeWhile isDigit)))
         | c :: _ => parse_possible_float s c) := by
  induction digits with
  | nil =>
    intro s e a ha _
    simp [float_parse_loop, digitsValAccI, ha]
  | cons d rest ih =>
    intro s e a ha hpos
    rw [float_parse_loop]
    by_cases hd : isDigit d = true
    · rw [if_pos hd]
      rw [List.takeWhile_cons_of_pos hd, List.dropWhile_cons_of_pos hd]
      have hstep : wrap64 (wrap64 (a * 10) + ((d : Int) - 48)) = wrap64 (10 * e + ((d : Int) - 48)) :=
        wrap_step e a _ ha
      rw [hstep]
      set e' : Int := 10 * e + ((d : Int) - 48) with he'
      have hrange : List.range ((d :: rest.takeWhile isDigit).length)
          = 0 :: (List.range (rest.takeWhile isDigit).length).map (· + 1) := by
        rw [List.length_cons, List.range_succ_eq_map]
      rw [hrange]
      rw [List.any_cons, List.any_map]
      have hf0 : (decide (wrap64 (digitsValAccI e ((d :: rest.takeWhile isDigit).take (0 + 1))) < 0))
          = decide (wrap64 e' < 0) := by
        simp [digitsValAccI, he']
      rw [hf0]
      have hfk : ∀ k, ((fun k => decide (wrap64 (digitsValAccI e ((d :: rest.takeWhile isDigit).take (k + 1))) < 0)) ∘ (· + 1)) k
          = (fun k => decide (wrap64 (digitsValAccI e' ((rest.takeWhile isDigit).take (k + 1))) < 0)) k := by
        intro k
        show decide (wrap64 (digitsValAccI e ((d :: rest.takeWhile isDigit).take (k + 1 + 1))) < 0) = _
        rw [List.take_succ_cons, digitsValAccI_cons, ← he']
      rw [funext hfk]
      by_cases hneg : wrap64 e' < 0
      · rw [if_pos hneg]
        simp [hneg]
      · rw [if_neg hneg]
        have h0 : 0 ≤ wrap64 e' := by omega
        rw [ih s e' (wrap64 e') rfl h0]
        have hdec : decide (wrap64 e' < 0) = false := decide_eq_false hneg
        rw [hdec]
        rw [Bool.false_or]
        by_cases hany : (List.range (rest.takeWhile isDigit).length).any
            (fun k => decide (wrap64 (digitsValAccI e' ((rest.takeWhile isDigit).take (k + 1))) < 0)) = true
        · rw [if_pos hany, if_pos hany]
        · rw [if_neg hany, if_neg hany]
          have hval : digitsValAccI e (d :: rest.takeWhile isDigit) = digitsValAccI e' (rest.takeWhile isDigit) := by
            rw [digitsValAccI_cons]
          rw [hval]
    · rw [if_neg hd]
      rw [List.takeWhile_cons_of_neg (by simp [hd]), List.dropWhile_cons_of_neg (by simp [hd])]
      simp

theorem float_core_spec (s : List Nat) (neg : Bool) (first : Nat) (digits : List Nat) :
    float_parse_bytes.float_parse_signed s neg first digits =
      claim_float_parse.claim_float_core s neg first digits := by
  unfold float_parse_bytes.float_parse_signed claim_float_parse.claim_float_core
  by_cases hfd : isDigit first = true
  · rw [if_neg (by simp [hfd]), if_neg (by simp [hfd])]
    have h48 : 48 ≤ first ∧ first ≤ 57 := by
      unfold isDigit at hfd; simp at hfd; exact hfd
    have ha : ((first : Int) - 48) = wrap64 ((first : Int) - 48) :=
      (wrap64_id _ (by omega) (by omega)).symm
    rw [float_loop_spec digits s ((first : Int) - 48) ((first : Int) - 48) ha (by omega)]
    dsimp only
    by_cases hany : (List.range (digits.takeWhile isDigit).length).any
        (fun k => decide (wrap64 (digitsValAccI ((first : Int) - 48) ((digits.takeWhile isDigit).take (k + 1))) < 0)) = true
    · rw [if_pos hany, if_pos hany]
    · rw [if_neg hany, if_neg hany]
      cases hdw : digits.dropWhile isDigit with
      | nil =>
        dsimp only
        cases neg <;> rfl
      | cons c tail =>
        dsimp only
        by_cases hc : c = 46
        · subst hc
          have : parse_possible_float s 46 = IntFloat.Float s := by
            unfold parse_possible_float
            norm_num
          rw [this, if_pos rfl]
        · have : parse_possible_float s c = IntFloat.Err := by
            unfold parse_possible_float
            rw [if_pos hc]
          rw [this, if_neg hc]
  · rw [if_pos (by simp [hfd]), if_pos (by simp [hfd])]

/-- C5 (amended): `float_parse_bytes` maps an optional sign followed only
by ASCII digits to `Int` of the wrapped i64 accumulator, detecting overflow
only when some wrapped prefix value is negative; when the digit scan stops
at a dot it delegates the whole input to the external lexical float parser;
any other invalid byte yields `Err`. -/
theorem claim_C5_float_parse : ∀ s : List Nat, float_parse_bytes s = claim_float_parse s := by
  intro s
  rcases s with _ | ⟨c, rest⟩
  · rfl
  by_cases h45 : c = 45
  · subst h45
    rcases rest with _ | ⟨first, digits⟩
    · decide
    · show float_parse_bytes.float_parse_signed _ true first digits = _
      rw [float_core_spec]
      rfl
  · by_cases h43 : c = 43
    · subst h43
      rcases rest with _ | ⟨first, digits⟩
      · decide
      · show float_parse_bytes.float_parse_signed _ false first digits = _
        rw [float_core_spec]
        rfl
    · unfold float_parse_bytes claim_float_parse
      split
      · next heq => injection heq with h1 _; exact absurd h1 h45
      · next heq => injection heq with h1 _; exact absurd h1 h43
      · next first digits heq =>
          injection heq with h1 h2
          subst h1; subst h2
          exact float_core_spec _ false c rest
      · next heq => exact (List.noConfusion heq)

/-- C5 counterexample: the claim says any overflow of the i64 accumulator
yields `Err`, but on "18446744073709551616" (2^64, which exceeds i64::MAX)
the wrapped accumulator ends at 0, never negative, so the code returns
`Int 0` instead of `Err`. -/
theorem claim_C5_cex :
    float_parse_bytes (strBytes "18446744073709551616") = IntFloat.Int 0 ∧
    (strBytes "18446744073709551616").all isDigit = true ∧
    (digitsVal (strBytes "18446744073709551616") : Int) = 18446744073709551616 ∧
    i64max < 18446744073709551616 ∧
    IntFloat.Int 0 ≠ IntFloat.Err := by
  refine ⟨by decide, by decide, by decide, by decide, by decide⟩

/-- Witness for C2 at t = 86403: the bounds hold and the roundtrip gives
86400. -/
theorem claim_C2_witness :
    UNIX_0000 ≤ (86403 : Int) ∧ (86403 : Int) ≤ UNIX_9999 ∧
    (Date.from_timestamp 86403 false ⟨TimestampUnit.Second⟩).map Date.timestamp
      = .ok (86403 - 86403 % 86400) :=
  ⟨by decide, by decide, claim_C2_from_timestamp_roundtrip 86403 (by decide) (by decide)⟩

/-! ## Lemmas for claim C8: digit strings and the Display formatter -/

theorem fmt_eq_body (d : Duration) :
    Duration.fmt d = (if d.positive then [] else [45]) ++ 80 :: fmtBody d := by
  unfold Duration.fmt fmtBody
  simp

theorem digitsValAcc_cons (a d : Nat) (rest : List Nat) :
    digitsValAcc a (d :: rest) = digitsValAcc (10 * a + (d - 48)) rest := rfl

theorem digitsValAcc_append (a : Nat) (xs ys : List Nat) :
    digitsValAcc a (xs ++ ys) = digitsValAcc (digitsValAcc a xs) ys := by
  unfold digitsValAcc
  rw [List.foldl_append]

theorem digitsValAcc_single (a c : Nat) : digitsValAcc a [c] = 10 * a + (c - 48) := rfl

theorem digitsValAcc_ge_nat (ds : List Nat) : ∀ a : Nat, a ≤ digitsValAcc a ds := by
  induction ds with
  | nil => intro a; exact le_refl a
  | cons d rest ih =>
    intro a
    rw [digitsValAcc_cons]
    exact le_trans (by omega) (ih (10 * a + (d - 48)))

theorem digitsVal_eq_acc (ds : List Nat) : digitsVal ds = digitsValAcc 0 ds := rfl

theorem digitsValAcc_lt (ds : List Nat) (hds : ∀ c ∈ ds, isDigit c = true) :
    ∀ a : Nat, digitsValAcc a ds < (a + 1) * 10 ^ ds.length := by
  induction ds with
  | nil => intro a; simpa [digitsValAcc] using Nat.lt_succ_self a
  | cons d rest ih =>
    intro a
    rw [digitsValAcc_cons]
    have hd : d ≤ 57 := by
      have := hds d (List.mem_cons_self d rest)
      unfold isDigit at this; simp at this; omega
    have := ih (fun c hc => hds c (List.mem_cons_of_mem d hc)) (10 * a + (d - 48))
    calc digitsValAcc (10 * a + (d - 48)) rest
        < (10 * a + (d - 48) + 1) * 10 ^ rest.length := this
      _ ≤ (a + 1) * 10 ^ (d :: rest).length := by
          rw [List.length_cons, pow_succ]
          have h1 : 10 * a + (d - 48) + 1 ≤ (a + 1) * 10 := by omega
          calc (10 * a + (d - 48) + 1) * 10 ^ rest.length
              ≤ (a + 1) * 10 * 10 ^ rest.length := Nat.mul_le_mul_right _ h1
            _ = (a + 1) * (10 ^ rest.length * 10) := by ring

theorem digitsVal_lt (ds : List Nat) (hds : ∀ c ∈ ds, isDigit c = true) :
    digitsVal ds < 10 ^ ds.length := by
  have := digitsValAcc_lt ds hds 0
  simpa [digitsVal_eq_acc] using this

theorem natDigits_digits (n : Nat) : ∀ c ∈ natDigits n, isDigit c = true := by
  induction n using Nat.strong_induction_on with
  | _ n ih =>
    rw [natDigits]
    by_cases h : n < 10
    · rw [dif_pos h]
      intro c hc
      simp at hc
      unfold isDigit
      simp
      omega
    · rw [dif_neg h]
      intro c hc
      rw [List.mem_append] at hc
      rcases hc with hc | hc
      · exact ih (n / 10) (Nat.div_lt_self (by omega) (by norm_num)) c hc
      · simp at hc
        unfold isDigit
        simp
        have := Nat.mod_lt n (show 0 < 10 by norm_num)
        omega

theorem natDigits_ne_nil (n : Nat) : natDigits n ≠ [] := by
  rw [natDigits]
  by_cases h : n < 10
  · rw [dif_pos h]; simp
  · rw [dif_neg h]; simp

theorem digitsValAcc_natDigits (n : Nat) : ∀ a : Nat,
    digitsValAcc a (natDigits n) = a * 10 ^ (natDigits n).length + n := by
  induction n using Nat.strong_induction_on with
  | _ n ih =>
    intro a
    rw [natDigits]
    by_cases h : n < 10
    · rw [dif_pos h]
      unfold digitsValAcc
      simp
      omega
    · rw [dif_neg h]
      rw [digitsValAcc_append, ih (n / 10) (Nat.div_lt_self (by omega) (by norm_num)) a,
          digitsValAcc_single, List.length_append]
      have hd48 : 48 + n % 10 - 48 = n % 10 := by omega
      have hdm : 10 * (n / 10) + n % 10 = n := Nat.div_add_mod n 10
      rw [hd48]
      rw [show ([48 + n % 10] : List Nat).length = 1 from rfl, pow_succ]
      calc 10 * (a * 10 ^ (natDigits (n / 10)).length + n / 10) + n % 10
          = a * (10 ^ (natDigits (n / 10)).length * 10) + (10 * (n / 10) + n % 10) := by ring
        _ = a * (10 ^ (natDigits (n / 10)).length * 10) + n := by rw [hdm]

theorem digitsVal_natDigits (n : Nat) : digitsVal (natDigits n) = n := by
  rw [digitsVal_eq_acc, digitsValAcc_natDigits]
  simp

theorem natDigits_length_le (k : Nat) : ∀ n : Nat, n < 10 ^ k → 1 ≤ k → (natDigits n).length ≤ k := by
  induction k with
  | zero => intro n _ h1; omega
  | succ k ih =>
    intro n hn _
    rw [natDigits]
    by_cases h : n < 10
    · rw [dif_pos h]; simp
    · rw [dif_neg h]
      rw [List.length_append]
      have hk : 1 ≤ k := by
        rcases Nat.eq_zero_or_pos k with hk0 | hk0
        · subst hk0; norm_num at hn; omega
        · exact hk0
      have hdiv : n / 10 < 10 ^ k := by
        rw [Nat.div_lt_iff_lt_mul (by norm_num : (0:Nat) < 10)]
        calc n < 10 ^ (k + 1) := hn
          _ = 10 ^ k * 10 := pow_succ 10 k
      have := ih (n / 10) hdiv hk
      have hone : ([48 + n % 10] : List Nat).length = 1 := rfl
      omega

theorem digitsValAcc_replicate (r : Nat) : ∀ a : Nat,
    digitsValAcc a (List.replicate r 48) = a * 10 ^ r := by
  induction r with
  | zero => intro a; simp [digitsValAcc]
  | succ r ih =>
    intro a
    rw [List.replicate_succ, digitsValAcc_cons, ih]
    ring_nf

theorem pad6_digits (n : Nat) : ∀ c ∈ pad6 n, isDigit c = true := by
  intro c hc
  unfold pad6 at hc
  rw [List.mem_append] at hc
  rcases hc with hc | hc
  · have := List.eq_of_mem_replicate hc
    subst this
    rfl
  · exact natDigits_digits n c hc

theorem digitsVal_pad6 (n : Nat) : digitsVal (pad6 n) = n := by
  unfold pad6
  rw [digitsVal_eq_acc, digitsValAcc_append, digitsValAcc_replicate]
  simp
  rw [← digitsVal_eq_acc, digitsVal_natDigits]

theorem pad6_length (n : Nat) (h : n < 1000000) : (pad6 n).length = 6 := by
  unfold pad6
  rw [List.length_append, List.length_replicate]
  have : (natDigits n).length ≤ 6 := natDigits_length_le 6 n (by norm_num; omega) (by norm_num)
  omega

theorem trim_decomp (l : List Nat) :
    l = trimTrailingZeros l ++ List.replicate (l.reverse.takeWhile (fun b => b = 48)).length 48 := by
  have htw : l.reverse.takeWhile (fun b => b = 48)
      = List.replicate (l.reverse.takeWhile (fun b => b = 48)).length 48 := by
    apply List.eq_replicate_of_mem
    intro b hb
    have := List.mem_takeWhile_imp hb
    simpa using this
  calc l = l.reverse.reverse := (List.reverse_reverse l).symm
    _ = ((l.reverse.takeWhile (fun b => b = 48)) ++ (l.reverse.dropWhile (fun b => b = 48))).reverse := by
        rw [List.takeWhile_append_dropWhile]
    _ = (l.reverse.dropWhile (fun b => b = 48)).reverse
          ++ (l.reverse.takeWhile (fun b => b = 48)).reverse := by
        rw [List.reverse_append]
    _ = trimTrailingZeros l ++ List.replicate (l.reverse.takeWhile (fun b => b = 48)).length 48 := by
        conv_lhs => rw [htw, List.reverse_replicate]
        rfl

theorem fd_spec (mic : Nat) (h1 : 1 ≤ mic) (h6 : mic < 1000000) :
    trimTrailingZeros (pad6 mic) ≠ [] ∧
    (∀ c ∈ trimTrailingZeros (pad6 mic), isDigit c = true) ∧
    (trimTrailingZeros (pad6 mic)).length ≤ 6 ∧
    1 ≤ digitsVal (trimTrailingZeros (pad6 mic)) ∧
    digitsVal (trimTrailingZeros (pad6 mic)) < 10 ^ (trimTrailingZeros (pad6 mic)).length ∧
    digitsVal (trimTrailingZeros (pad6 mic)) * 10 ^ (6 - (trimTrailingZeros (pad6 mic)).length) = mic := by
  have hdec := trim_decomp (pad6 mic)
  set fd := trimTrailingZeros (pad6 mic) with hfd
  set r := ((pad6 mic).reverse.takeWhile (fun b => b = 48)).length with hr
  have hlen : fd.length + r = 6 := by
    have := congrArg List.length hdec
    rw [List.length_append, List.length_replicate, pad6_length mic h6] at this
    omega
  have hmem : ∀ c ∈ fd, c ∈ pad6 mic := by
    intro c hc
    rw [hdec, List.mem_append]
    exact Or.inl hc
  have hdigits : ∀ c ∈ fd, isDigit c = true := fun c hc => pad6_digits mic c (hmem c hc)
  have hval : digitsVal fd * 10 ^ r = mic := by
    have := congrArg digitsVal hdec
    rw [digitsVal_pad6] at this
    rw [digitsVal_eq_acc, digitsValAcc_append, digitsValAcc_replicate, ← digitsVal_eq_acc] at this
    omega
  have hr6 : r = 6 - fd.length := by omega
  have hne : fd ≠ [] := by
    intro hnil
    rw [hnil] at hval
    simp [digitsVal] at hval
    omega
  have hpos : 1 ≤ digitsVal fd := by
    rcases Nat.eq_zero_or_pos (digitsVal fd) with h0 | h0
    · rw [h0] at hval; simp at hval; omega
    · exact h0
  refine ⟨hne, hdigits, by omega, hpos, digitsVal_lt fd hdigits, ?_⟩
  rw [← hr6]
  exact hval

theorem parse_number_loop_nil (v pos : Nat) :
    Duration.parse_number_loop v [] pos = .ok (v, pos, []) := rfl

theorem parse_number_loop_cons (v c : Nat) (rest1 : List Nat) (pos : Nat) :
    Duration.parse_number_loop v (c :: rest1) pos =
      (if isDigit c then
        match checked_mul_u32 v 10 with
        | .error e => .error e
        | .ok v1 =>
          match checked_add_u32 v1 (c - 48) with
          | .error e => .error e
          | .ok v2 => Duration.parse_number_loop v2 rest1 (pos + 1)
      else .ok (v, pos, c :: rest1)) := rfl

theorem parse_number_loop_spec (ds : List Nat) (hds : ∀ c ∈ ds, isDigit c = true) :
    ∀ (v pos : Nat) (rest : List Nat), headNotDigit rest →
    digitsValAcc v ds ≤ u32max →
    Duration.parse_number_loop v (ds ++ rest) pos
      = .ok (digitsValAcc v ds, pos + ds.length, rest) := by
  induction ds with
  | nil =>
    intro v pos rest hrest hb
    rw [List.nil_append]
    cases rest with
    | nil => rw [parse_number_loop_nil]; simp [digitsValAcc]
    | cons c rest1 =>
      rw [parse_number_loop_cons]
      rw [if_neg (by simp [hrest c rfl])]
      simp [digitsValAcc]
  | cons d ds1 ih =>
    intro v pos rest hrest hb
    rw [List.cons_append, parse_number_loop_cons]
    rw [if_pos (hds d (List.mem_cons_self d ds1))]
    rw [digitsValAcc_cons] at hb ⊢
    have hge : 10 * v + (d - 48) ≤ digitsValAcc (10 * v + (d - 48)) ds1 :=
      digitsValAcc_ge_nat ds1 _
    have hmul : ¬(u32max < v * 10) := by unfold u32max at hb ⊢; omega
    have hadd : ¬(u32max < v * 10 + (d - 48)) := by unfold u32max at hb ⊢; omega
    unfold checked_mul_u32
    rw [if_neg hmul]
    dsimp only
    unfold checked_add_u32
    rw [if_neg hadd]
    dsimp only
    have hvm : v * 10 + (d - 48) = 10 * v + (d - 48) := by ring
    rw [hvm]
    rw [ih (fun c hc => hds c (List.mem_cons_of_mem d hc)) _ (pos + 1) rest hrest hb]
    rw [List.length_cons]
    have : pos + 1 + ds1.length = pos + (ds1.length + 1) := by omega
    rw [this]

theorem parse_number_spec (d1 : Nat) (ds1 : List Nat)
    (hds : ∀ c ∈ d1 :: ds1, isDigit c = true)
    (hb : digitsVal (d1 :: ds1) ≤ u32max)
    (rest : List Nat) (hrest : headNotDigit rest) (pos : Nat) :
    Duration.parse_number d1 (ds1 ++ rest) pos
      = .ok (digitsVal (d1 :: ds1), pos + ds1.length + 1, rest) := by
  unfold Duration.parse_number
  rw [if_pos (hds d1 (List.mem_cons_self d1 ds1))]
  have hv : digitsVal (d1 :: ds1) = digitsValAcc (d1 - 48) ds1 := by
    rw [digitsVal_eq_acc, digitsValAcc_cons]
    norm_num
  rw [hv] at hb ⊢
  rw [parse_number_loop_spec ds1 (fun c hc => hds c (List.mem_cons_of_mem d1 hc)) _ (pos + 1) rest hrest hb]
  have : pos + 1 + ds1.length = pos + ds1.length + 1 := by omega
  rw [this]

theorem parse_number_frac_nofrac (d1 : Nat) (ds1 : List Nat)
    (hds : ∀ c ∈ d1 :: ds1, isDigit c = true)
    (hb : digitsVal (d1 :: ds1) ≤ u32max)
    (rest : List Nat) (hrest : headNotDigit rest)
    (hdot : ∀ c, rest.head? = some c → ¬(c = 46 ∨ c = 44)) (pos : Nat) :
    Duration.parse_number_frac d1 (ds1 ++ rest) pos
      = .ok (digitsVal (d1 :: ds1), none, pos + ds1.length + 1, rest) := by
  unfold Duration.parse_number_frac
  rw [parse_number_spec d1 ds1 hds hb rest hrest pos]
  cases rest with
  | nil => rfl
  | cons c rest2 =>
    dsimp only
    rw [if_neg (hdot c rfl)]

/-! ## Lemmas for claim C8: the binary64 rounding model -/

theorem rhe_int (n : ℤ) : rhe (n : ℚ) = n := by
  unfold rhe
  simp

theorem rhe_bounds (x : ℚ) : (⌊x⌋ : ℤ) ≤ rhe x ∧ rhe x ≤ ⌊x⌋ + 1 := by
  unfold rhe
  dsimp only
  split_ifs <;> omega

theorem rhe_abs (x : ℚ) : |(rhe x : ℚ) - x| ≤ 1 / 2 := by
  have h1 : (⌊x⌋ : ℚ) ≤ x := Int.floor_le x
  have h2 : x < ⌊x⌋ + 1 := Int.lt_floor_add_one x
  unfold rhe
  dsimp only
  split_ifs with ha hb hc
  · rw [abs_le]; constructor <;> linarith
  · rw [abs_le]; push_cast; constructor <;> linarith
  · rw [abs_le]; constructor <;> linarith
  · rw [abs_le]; push_cast; constructor <;> linarith

theorem log2_le_self (q : ℚ) (hq : 0 < q) : (2:ℚ) ^ (Int.log 2 q) ≤ q := by
  have := Int.zpow_log_le_self (b := 2) (by norm_num) hq
  exact_mod_cast this

theorem lt_log2_succ (q : ℚ) (hq : 0 < q) : q < (2:ℚ) ^ (Int.log 2 q + 1) := by
  have := Int.lt_zpow_succ_log_self (b := 2) (by norm_num) q
  exact_mod_cast this

theorem fl_err (q : ℚ) (hq : 0 < q) : |fl q - q| ≤ q / 2 ^ 53 := by
  unfold fl
  rw [if_neg (ne_of_gt hq), if_pos hq]
  set e := Int.log 2 q with he
  have h2 : (0:ℚ) < 2 ^ (e - 52) := by positivity
  have habs := rhe_abs (q / 2 ^ (e - 52))
  have key : (rhe (q / 2 ^ (e - 52)) : ℚ) * 2 ^ (e - 52) - q
      = ((rhe (q / 2 ^ (e - 52)) : ℚ) - q / 2 ^ (e - 52)) * 2 ^ (e - 52) := by
    field_simp
  rw [key, abs_mul, abs_of_pos h2]
  have hle : |(rhe (q / 2 ^ (e - 52)) : ℚ) - q / 2 ^ (e - 52)| * 2 ^ (e - 52)
      ≤ (1 / 2) * 2 ^ (e - 52) :=
    mul_le_mul_of_nonneg_right habs (le_of_lt h2)
  refine le_trans hle ?_
  have hlog : (2:ℚ) ^ e ≤ q := log2_le_self q hq
  have heq : (1 / 2) * (2:ℚ) ^ (e - 52) = 2 ^ e / 2 ^ (53:ℕ) := by
    rw [zpow_sub₀ (by norm_num : (2:ℚ) ≠ 0)]
    rw [show ((2:ℚ) ^ (52:ℤ)) = 4503599627370496 by norm_num]
    rw [show ((2:ℚ) ^ (53:ℕ)) = 9007199254740992 by norm_num]
    ring
  rw [heq]
  gcongr

theorem fl_lb (q : ℚ) (hq : 0 < q) : q - q / 2 ^ 53 ≤ fl q := by
  have := fl_err q hq
  rw [abs_le] at this
  linarith [this.1]

theorem fl_ub (q : ℚ) (hq : 0 < q) : fl q ≤ q + q / 2 ^ 53 := by
  have := fl_err q hq
  rw [abs_le] at this
  linarith [this.2]

theorem fl_pos (q : ℚ) (hq : 0 < q) : 0 < fl q := by
  have h1 := fl_lb q hq
  have h2 : q / 2 ^ 53 < q := div_lt_self hq (by norm_num)
  linarith

theorem log2_eq (q : ℚ) (e : ℤ) (h1 : (2:ℚ) ^ e ≤ q) (h2 : q < (2:ℚ) ^ (e + 1)) :
    Int.log 2 q = e := by
  have hq : 0 < q := lt_of_lt_of_le (by positivity) h1
  have hle : e ≤ Int.log 2 q := by
    rw [← Int.zpow_le_iff_le_log (by norm_num) hq]
    exact_mod_cast h1
  have hge : Int.log 2 q ≤ e := by
    by_contra hcon
    push_neg at hcon
    have hstep : (2:ℚ) ^ (e + 1) ≤ 2 ^ (Int.log 2 q) := by
      apply zpow_le_zpow_right₀ (by norm_num)
      omega
    have := le_trans hstep (log2_le_self q hq)
    linarith
  omega

theorem fl_rep (m j : ℤ) (h1 : 2 ^ 52 ≤ m) (h2 : m < 2 ^ 53) :
    fl ((m : ℚ) * 2 ^ j) = (m : ℚ) * 2 ^ j := by
  have hm : (0:ℚ) < (m:ℚ) := by
    have : (0:ℤ) < m := by positivity
    exact_mod_cast this
  have hq : 0 < (m:ℚ) * 2 ^ j := by positivity
  have hc1 : (2:ℚ) ^ (52:ℤ) ≤ (m:ℚ) := by
    rw [show ((2:ℚ) ^ (52:ℤ)) = ((2 ^ 52 : ℤ) : ℚ) by push_cast; norm_num]
    exact_mod_cast h1
  have hc2 : (m:ℚ) < 2 ^ (53:ℤ) := by
    rw [show ((2:ℚ) ^ (53:ℤ)) = ((2 ^ 53 : ℤ) : ℚ) by push_cast; norm_num]
    exact_mod_cast h2
  have hlog : Int.log 2 ((m:ℚ) * 2 ^ j) = 52 + j := by
    apply log2_eq
    · rw [zpow_add₀ (by norm_num : (2:ℚ) ≠ 0)]
      exact mul_le_mul_of_nonneg_right hc1 (by positivity)
    · rw [show (52 : ℤ) + j + 1 = 53 + j by ring, zpow_add₀ (by norm_num : (2:ℚ) ≠ 0)]
      exact mul_lt_mul_of_pos_right hc2 (by positivity)
  unfold fl
  rw [if_neg (ne_of_gt hq), if_pos hq, hlog]
  rw [show (52 : ℤ) + j - 52 = j by ring]
  have hdiv : (m:ℚ) * 2 ^ j / 2 ^ j = (m:ℚ) := by
    field_simp
  rw [hdiv, rhe_int]

theorem fl_form (q : ℚ) (hq : 0 < q) :
    ∃ m j : ℤ, fl q = (m : ℚ) * 2 ^ j ∧ 2 ^ 52 ≤ m ∧ m < 2 ^ 53 := by
  set e := Int.log 2 q with he
  set s := q / 2 ^ (e - 52) with hs
  have hspos : 0 < s := by rw [hs]; positivity
  have hsl : (2:ℚ) ^ (52:ℤ) ≤ s := by
    rw [hs, le_div_iff (by positivity)]
    rw [← zpow_add₀ (by norm_num : (2:ℚ) ≠ 0)]
    rw [show (52 : ℤ) + (e - 52) = e by ring]
    exact log2_le_self q hq
  have hsu : s < (2:ℚ) ^ (53:ℤ) := by
    rw [hs, div_lt_iff (by positivity)]
    rw [← zpow_add₀ (by norm_num : (2:ℚ) ≠ 0)]
    rw [show (53 : ℤ) + (e - 52) = e + 1 by ring]
    exact lt_log2_succ q hq
  have hfl : fl q = (rhe s : ℚ) * 2 ^ (e - 52) := by
    unfold fl
    rw [if_neg (ne_of_gt hq), if_pos hq]
  have hfloor_l : (2:ℤ) ^ 52 ≤ ⌊s⌋ := by
    rw [Int.le_floor]
    rw [show (((2:ℤ) ^ 52 : ℤ) : ℚ) = (2:ℚ) ^ (52:ℤ) by push_cast; norm_num]
    exact hsl
  have hfloor_u : ⌊s⌋ < 2 ^ 53 := by
    rw [Int.floor_lt]
    rw [show (((2:ℤ) ^ 53 : ℤ) : ℚ) = (2:ℚ) ^ (53:ℤ) by push_cast; norm_num]
    exact hsu
  obtain ⟨hrl, hru⟩ := rhe_bounds s
  by_cases hcase : rhe s < 2 ^ 53
  · exact ⟨rhe s, e - 52, hfl, by omega, hcase⟩
  · have h53 : rhe s = 2 ^ 53 := by omega
    refine ⟨2 ^ 52, e - 51, ?_, le_refl _, by norm_num⟩
    rw [hfl, h53]
    rw [show (((2:ℤ) ^ 53 : ℤ) : ℚ) = (2:ℚ) ^ (53:ℤ) by push_cast; norm_num]
    rw [show (((2:ℤ) ^ 52 : ℤ) : ℚ) = (2:ℚ) ^ (52:ℤ) by push_cast; norm_num]
    rw [← zpow_add₀ (by norm_num : (2:ℚ) ≠ 0), ← zpow_add₀ (by norm_num : (2:ℚ) ≠ 0)]
    congr 1
    omega

theorem fl_idem_pos (q : ℚ) (hq : 0 < q) : fl (fl q) = fl q := by
  obtain ⟨m, j, hfl, h1, h2⟩ := fl_form q hq
  rw [hfl, fl_rep m j h1 h2]

theorem fl_int_big (m j : ℤ) (h1 : 0 < m) (h2 : m ≤ 2 ^ 53) :
    fl ((m : ℚ) * 2 ^ j) = (m : ℚ) * 2 ^ j := by
  by_cases htop : m = 2 ^ 53
  · subst htop
    have hrw : (((2:ℤ) ^ 53 : ℤ) : ℚ) * 2 ^ j = ((2 ^ 52 : ℤ) : ℚ) * 2 ^ (j + 1) := by
      rw [zpow_add₀ (by norm_num : (2:ℚ) ≠ 0)]
      push_cast
      ring
    rw [hrw, fl_rep (2 ^ 52) (j + 1) (le_refl _) (by norm_num)]
  · have hlt : m < 2 ^ 53 := lt_of_le_of_ne h2 htop
    set n := m.toNat with hn
    have hmn : (n : ℤ) = m := Int.toNat_of_nonneg (le_of_lt h1)
    have hn0 : n ≠ 0 := by omega
    have hnlt : n < 2 ^ 53 := by omega
    set L := Nat.log 2 n with hL
    have hlow : 2 ^ L ≤ n := Nat.pow_log_le_self 2 hn0
    have hhigh : n < 2 ^ (L + 1) := Nat.lt_pow_succ_log_self (by norm_num) n
    have hL52 : L ≤ 52 := by
      by_contra hcon
      push_neg at hcon
      have : (2:ℕ) ^ 53 ≤ 2 ^ L := Nat.pow_le_pow_right (by norm_num) (by omega)
      omega
    have hm1 : (2:ℤ) ^ 52 ≤ m * 2 ^ (52 - L) := by
      have e2 : (2:ℕ) ^ L * 2 ^ (52 - L) ≤ n * 2 ^ (52 - L) :=
        Nat.mul_le_mul_right _ hlow
      have e1 : (2:ℕ) ^ L * 2 ^ (52 - L) = 2 ^ 52 := by
        rw [← pow_add]
        congr 1
        omega
      rw [e1] at e2
      have hcast : ((2 ^ 52 : ℕ) : ℤ) ≤ ((n * 2 ^ (52 - L) : ℕ) : ℤ) := Int.ofNat_le.mpr e2
      push_cast at hcast
      rw [hmn] at hcast
      exact_mod_cast hcast
    have hm2 : m * 2 ^ (52 - L) < 2 ^ 53 := by
      have e2 : n * 2 ^ (52 - L) < 2 ^ (L + 1) * 2 ^ (52 - L) := by
        apply Nat.mul_lt_mul_of_lt_of_le hhigh (le_refl _)
        positivity
      have e1 : (2:ℕ) ^ (L + 1) * 2 ^ (52 - L) = 2 ^ 53 := by
        rw [← pow_add]
        congr 1
        omega
      rw [e1] at e2
      have hcast : ((n * 2 ^ (52 - L) : ℕ) : ℤ) < ((2 ^ 53 : ℕ) : ℤ) := Int.ofNat_lt.mpr e2
      push_cast at hcast
      rw [hmn] at hcast
      exact_mod_cast hcast
    have hqrw : ((m * 2 ^ (52 - L) : ℤ) : ℚ) * 2 ^ (j - ((52 - L : ℕ) : ℤ)) = (m : ℚ) * 2 ^ j := by
      push_cast
      rw [← zpow_natCast (2:ℚ) (52 - L), mul_assoc, ← zpow_add₀ (by norm_num : (2:ℚ) ≠ 0)]
      congr 2
      ring
    rw [← hqrw, fl_rep _ _ hm1 hm2]

theorem fl_nat_exact (n : Nat) (h : n ≤ 2 ^ 53) : fl (n : ℚ) = n := by
  rcases Nat.eq_zero_or_pos n with h0 | h0
  · subst h0
    unfold fl
    rw [if_pos (by norm_num)]
    norm_num
  · have hbig := fl_int_big (n : ℤ) 0 (by exact_mod_cast h0) (by exact_mod_cast h)
    simp only [zpow_zero, mul_one] at hbig
    rw [show (((n:ℤ)):ℚ) = (n : ℚ) by push_cast; rfl] at hbig
    exact hbig

set_option maxHeartbeats 1600000 in
theorem frac_q_spec (dnum k : Nat) (hk1 : 1 ≤ k) (hk6 : k ≤ 6)
    (h1 : 1 ≤ dnum) (h2 : dnum < 10 ^ k) :
    0 < fdiv (dnum : ℚ) ((10 ^ k : Nat) : ℚ) ∧
    fdiv (dnum : ℚ) ((10 ^ k : Nat) : ℚ) < 1 ∧
    fl (fdiv (dnum : ℚ) ((10 ^ k : Nat) : ℚ)) = fdiv (dnum : ℚ) ((10 ^ k : Nat) : ℚ) ∧
    fround (fl (fdiv (dnum : ℚ) ((10 ^ k : Nat) : ℚ) * 1000000))
      = ((dnum * 10 ^ (6 - k) : Nat) : ℚ) := by
  have hD0 : (0:ℚ) < ((10 ^ k : Nat) : ℚ) := by
    have : (0:ℕ) < 10 ^ k := by positivity
    exact_mod_cast this
  unfold fdiv
  set x : ℚ := (dnum : ℚ) / ((10 ^ k : Nat) : ℚ) with hxdef
  have hx0 : 0 < x := by
    rw [hxdef]
    apply div_pos _ hD0
    exact_mod_cast h1
  have hDle : ((10 ^ k : Nat) : ℚ) ≤ 1000000 := by
    have : (10:ℕ) ^ k ≤ 10 ^ 6 := Nat.pow_le_pow_right (by norm_num) hk6
    have h6 : ((10 ^ 6 : Nat) : ℚ) = 1000000 := by norm_num
    calc ((10 ^ k : Nat) : ℚ) ≤ ((10 ^ 6 : Nat) : ℚ) := by exact_mod_cast this
      _ = 1000000 := h6
  have hdnumle : (dnum : ℚ) ≤ ((10 ^ k : Nat) : ℚ) - 1 := by
    have : dnum ≤ 10 ^ k - 1 := by omega
    have hcast : ((10 ^ k - 1 : ℕ) : ℚ) = ((10 ^ k : Nat) : ℚ) - 1 := by
      have hge : (1:ℕ) ≤ 10 ^ k := by
        have : (0:ℕ) < 10 ^ k := by positivity
        omega
      push_cast [hge]
      ring
    calc (dnum : ℚ) ≤ ((10 ^ k - 1 : ℕ) : ℚ) := by exact_mod_cast this
      _ = ((10 ^ k : Nat) : ℚ) - 1 := hcast
  have hxu : x ≤ 1 - 1 / 1000000 := by
    have hstep1 : x ≤ (((10 ^ k : Nat) : ℚ) - 1) / ((10 ^ k : Nat) : ℚ) := by
      rw [hxdef]
      gcongr
    have hstep2 : (((10 ^ k : Nat) : ℚ) - 1) / ((10 ^ k : Nat) : ℚ)
        = 1 - 1 / ((10 ^ k : Nat) : ℚ) := by
      field_simp
    have hstep3 : (1:ℚ) / 1000000 ≤ 1 / ((10 ^ k : Nat) : ℚ) :=
      one_div_le_one_div_of_le hD0 hDle
    rw [hstep2] at hstep1
    linarith
  have herr := fl_err x hx0
  rw [abs_le] at herr
  have hq0 : 0 < fl x := fl_pos x hx0
  have hq1 : fl x < 1 := by
    have hxd : x / 2 ^ 53 ≤ (1 - 1 / 1000000) / 2 ^ 53 := by gcongr
    have hlit : (1 - 1 / 1000000 : ℚ) + (1 - 1 / 1000000) / 2 ^ 53 < 1 := by norm_num
    linarith [herr.2]
  have hidem : fl (fl x) = fl x := fl_idem_pos x hx0
  refine ⟨hq0, hq1, hidem, ?_⟩
  -- the micro extraction
  set q := fl x with hqdef
  have hpow : (10:ℚ) ^ (6 - k) * 10 ^ k = 1000000 := by
    rw [← pow_add]
    rw [show 6 - k + k = 6 by omega]
    norm_num
  have hmx : x * 1000000 = ((dnum * 10 ^ (6 - k) : ℕ) : ℚ) := by
    rw [hxdef]
    push_cast
    rw [div_mul_eq_mul_div, eq_comm, mul_comm ((dnum:ℚ)) ((10:ℚ) ^ (6 - k))]
    rw [eq_div_iff (by positivity)]
    rw [mul_assoc, mul_comm ((dnum:ℚ)) ((10:ℚ) ^ k), ← mul_assoc, hpow]
    ring
  have hmicro1 : (1:ℚ) ≤ ((dnum * 10 ^ (6 - k) : ℕ) : ℚ) := by
    have : (1:ℕ) ≤ dnum * 10 ^ (6 - k) := by
      have h01 : (0:ℕ) < 10 ^ (6 - k) := by positivity
      exact Nat.one_le_iff_ne_zero.mpr (by positivity)
    exact_mod_cast this
  have hy0 : 0 < q * 1000000 := by positivity
  have herr2 := fl_err (q * 1000000) hy0
  rw [abs_le] at herr2
  set y := fl (q * 1000000) with hydef
  set micro : ℚ := ((dnum * 10 ^ (6 - k) : ℕ) : ℚ) with hmicrodef
  have hx1 : x ≤ 1 := by linarith
  have hq1' : q ≤ 1 := le_of_lt hq1
  have hybound : micro - 1 / 2 < y ∧ y < micro + 1 / 2 := by
    have e1 : q * 1000000 - x * 1000000 ≤ (x / 2 ^ 53) * 1000000 := by nlinarith [herr.2]
    have e2 : x * 1000000 - q * 1000000 ≤ (x / 2 ^ 53) * 1000000 := by nlinarith [herr.1]
    have e3 : (x / 2 ^ 53) * 1000000 ≤ (1 / 2 ^ 53) * 1000000 := by
      have : x / 2 ^ 53 ≤ 1 / 2 ^ 53 := by gcongr
      nlinarith [this]
    have e4 : q * 1000000 / 2 ^ 53 ≤ 1000000 / 2 ^ 53 := by
      gcongr
      nlinarith
    have e5 : (1:ℚ) / 2 ^ 53 * 1000000 + 1000000 / 2 ^ 53 < 1 / 2 := by norm_num
    constructor
    · rw [← hmx]
      linarith [herr2.1]
    · rw [← hmx]
      linarith [herr2.2]
  have hypos : 0 ≤ y := by
    have := hybound.1
    linarith [hmicro1]
  unfold fround
  rw [if_pos hypos]
  have hmc : micro = (dnum:ℚ) * 10 ^ (6 - k) := by
    rw [hmicrodef]
    push_cast
    ring
  have hfloor : ⌊y + 1 / 2⌋ = ((dnum * 10 ^ (6 - k) : ℕ) : ℤ) := by
    rw [Int.floor_eq_iff]
    constructor
    · push_cast
      linarith [hybound.1, hmc]
    · push_cast
      linarith [hybound.2, hmc]
  rw [hfloor, hmicrodef]
  push_cast
  ring

/-! ## Lemmas for claim C8: the fraction loop -/

theorem frac_loop_nil (dec den : ℚ) (pos : Nat) :
    Duration.frac_loop dec den [] pos = (fdiv dec den, pos, []) := rfl

theorem frac_loop_cons (dec den : ℚ) (c : Nat) (rest1 : List Nat) (pos : Nat) :
    Duration.frac_loop dec den (c :: rest1) pos =
      (if isDigit c then
        Duration.frac_loop (fadd (fmul dec 10) ((c - 48 : Nat) : ℚ)) (fmul den 10) rest1 (pos + 1)
      else (fdiv dec den, pos, c :: rest1)) := rfl

theorem frac_loop_spec (fds : List Nat) (hfds : ∀ c ∈ fds, isDigit c = true) :
    ∀ (a t : Nat) (rest : List Nat) (pos : Nat), headNotDigit rest →
    digitsValAcc a fds ≤ 999999 → t + fds.length ≤ 6 →
    Duration.frac_loop (a : ℚ) ((10 ^ t : Nat) : ℚ) (fds ++ rest) pos
      = (fdiv ((digitsValAcc a fds : Nat) : ℚ) ((10 ^ (t + fds.length) : Nat) : ℚ),
         pos + fds.length, rest) := by
  induction fds with
  | nil =>
    intro a t rest pos hrest hb ht
    rw [List.nil_append]
    cases rest with
    | nil =>
      rw [frac_loop_nil]
      simp [digitsValAcc]
    | cons c rest1 =>
      rw [frac_loop_cons]
      rw [if_neg (by simp [hrest c rfl])]
      simp [digitsValAcc]
  | cons c fds1 ih =>
    intro a t rest pos hrest hb ht
    rw [List.cons_append, frac_loop_cons]
    rw [if_pos (hfds c (List.mem_cons_self c fds1))]
    rw [digitsValAcc_cons] at hb ⊢
    have hge : 10 * a + (c - 48) ≤ digitsValAcc (10 * a + (c - 48)) fds1 :=
      digitsValAcc_ge_nat fds1 _
    have hmul : fmul (a : ℚ) 10 = ((10 * a : ℕ) : ℚ) := by
      unfold fmul
      rw [show ((a:ℚ) * 10) = ((10 * a : ℕ) : ℚ) by push_cast; ring]
      exact fl_nat_exact (10 * a) (by norm_num; omega)
    have hadd : fadd ((10 * a : ℕ) : ℚ) ((c - 48 : Nat) : ℚ) = ((10 * a + (c - 48) : ℕ) : ℚ) := by
      unfold fadd
      rw [show (((10 * a : ℕ) : ℚ) + ((c - 48 : Nat) : ℚ)) = ((10 * a + (c - 48) : ℕ) : ℚ) by push_cast; ring]
      exact fl_nat_exact (10 * a + (c - 48)) (by norm_num; omega)
    have hden : fmul ((10 ^ t : Nat) : ℚ) 10 = ((10 ^ (t + 1) : ℕ) : ℚ) := by
      unfold fmul
      rw [show (((10 ^ t : Nat) : ℚ) * 10) = ((10 ^ (t + 1) : ℕ) : ℚ) by push_cast; ring]
      apply fl_nat_exact
      calc (10:ℕ) ^ (t + 1) ≤ 10 ^ 6 := Nat.pow_le_pow_right (by norm_num) (by simp at ht; omega)
        _ ≤ 2 ^ 53 := by norm_num
    rw [hmul, hadd, hden]
    rw [ih (fun d hd => hfds d (List.mem_cons_of_mem c hd)) (10 * a + (c - 48)) (t + 1) rest (pos + 1)
        hrest hb (by simp at ht ⊢; omega)]
    rw [List.length_cons]
    have h1 : t + 1 + fds1.length = t + (fds1.length + 1) := by omega
    have h2 : pos + 1 + fds1.length = pos + (fds1.length + 1) := by omega
    rw [h1, h2]

theorem parse_number_frac_frac (d1 : Nat) (ds1 fds rest : List Nat)
    (hds : ∀ c ∈ d1 :: ds1, isDigit c = true)
    (hb : digitsVal (d1 :: ds1) ≤ u32max)
    (hfds : ∀ c ∈ fds, isDigit c = true)
    (hfb : digitsVal fds ≤ 999999) (hflen : fds.length ≤ 6)
    (hrest : headNotDigit rest) (pos : Nat) :
    Duration.parse_number_frac d1 (ds1 ++ 46 :: (fds ++ rest)) pos
      = .ok (digitsVal (d1 :: ds1),
             some (fdiv ((digitsVal fds : Nat) : ℚ) ((10 ^ fds.length : Nat) : ℚ)),
             pos + ds1.length + fds.length + 2, rest) := by
  unfold Duration.parse_number_frac
  rw [parse_number_spec d1 ds1 hds hb (46 :: (fds ++ rest)) (by intro c hc; injection hc with h; subst h; rfl) pos]
  dsimp only
  rw [if_pos (Or.inl rfl)]
  have hcast0 : ((0 : Nat) : ℚ) = (0 : ℚ) := by norm_num
  have hcast1 : ((10 ^ 0 : Nat) : ℚ) = (1 : ℚ) := by norm_num
  rw [← hcast0, ← hcast1]
  rw [frac_loop_spec fds hfds 0 0 rest (pos + ds1.length + 1 + 1) hrest
      (by rw [← digitsVal_eq_acc]; exact hfb) (by omega)]
  rw [← digitsVal_eq_acc]
  have hpos2 : pos + ds1.length + 1 + 1 + fds.length = pos + ds1.length + fds.length + 2 := by omega
  rw [hpos2]
  norm_num

/-! ## Lemmas for claim C8: the ISO-8601 duration loop -/

theorem iso_loop_nil (g pos : Nat) (t l : Bool) (day sec mic : Nat) :
    Duration.parse_iso_loop (g + 1) [] pos t l day sec mic = .ok (day, sec, mic, pos) := rfl

theorem iso_loop_cons (g : Nat) (c : Nat) (rest1 : List Nat) (pos : Nat)
    (got_t last_had_fraction : Bool) (day second microsecond : Nat) :
    Duration.parse_iso_loop (g + 1) (c :: rest1) pos got_t last_had_fraction day second microsecond =
      (if c = 84 then
        if got_t then .error ParseError.DurationTRepeated
        else Duration.parse_iso_loop g rest1 (pos + 1) true last_had_fraction day second microsecond
      else
        match Duration.parse_number_frac c rest1 pos with
        | .error e => .error e
        | .ok (value, op_fraction, pos1, rest2) =>
          if last_had_fraction then .error ParseError.DurationInvalidFraction
          else
            let lhf := last_had_fraction || op_fraction.isSome
            if got_t then
              match rest2 with
              | [] => .error ParseError.DurationInvalidTimeUnit
              | u :: rest3 =>
                match (if u = 72 then some 3600 else if u = 77 then some 60
                       else if u = 83 then some 1 else none) with
                | none => .error ParseError.DurationInvalidTimeUnit
                | some mult =>
                  let sec_acc : Except ParseError Nat :=
                    match checked_mul_u32 mult value with
                    | .error e => .error e
                    | .ok mv => checked_add_u32 second mv
                  match sec_acc with
                  | .error e => .error e
                  | .ok second1 =>
                    match op_fraction with
                    | none =>
                      Duration.parse_iso_loop g rest3 (pos1 + 1) got_t lhf day second1 microsecond
                    | some fraction =>
                      let extra_seconds := fmul fraction (mult : ℚ)
                      let extra_full_seconds := ftrunc extra_seconds
                      match checked_add_u32 second1 (f64_as_u32 extra_full_seconds) with
                      | .error e => .error e
                      | .ok second2 =>
                        let micro_extra :=
                          f64_as_u32 (fround (fmul (fsub extra_seconds extra_full_seconds) 1000000))
                        match checked_add_u32 microsecond micro_extra with
                        | .error e => .error e
                        | .ok microsecond1 =>
                          Duration.parse_iso_loop g rest3 (pos1 + 1) got_t lhf day second2 microsecond1
            else
              match rest2 with
              | [] => .error ParseError.DurationInvalidDateUnit
              | u :: rest3 =>
                match (if u = 89 then some 365 else if u = 77 then some 30
                       else if u = 87 then some 7 else if u = 68 then some 1 else none) with
                | none => .error ParseError.DurationInvalidDateUnit
                | some mult =>
                  let day_acc : Except ParseError Nat :=
                    match checked_mul_u32 value mult with
                    | .error e => .error e
                    | .ok vm => checked_add_u32 day vm
                  match day_acc with
                  | .error e => .error e
                  | .ok day1 =>
                    match op_fraction with
                    | none =>
                      Duration.parse_iso_loop g rest3 (pos1 + 1) got_t lhf day1 second microsecond
                    | some fraction =>
                      let extra_days := fmul fraction (mult : ℚ)
                      let extra_full_days := ftrunc extra_days
                      match checked_add_u32 day1 (f64_as_u32 extra_full_days) with
                      | .error e => .error e
                      | .ok day2 =>
                        let extra_seconds := fmul (fsub extra_days extra_full_days) 86400
                        let extra_full_seconds := ftrunc extra_seconds
                        match checked_add_u32 second (f64_as_u32 extra_full_seconds) with
                        | .error e => .error e
                        | .ok second1 =>
                          let microsecond1 :=
                            (microsecond + f64_as_u32 (fround (fmul (fsub extra_seconds extra_full_seconds) 1000000)))
                              % 4294967296
                          Duration.parse_iso_loop g rest3 (pos1 + 1) got_t lhf day2 second1 microsecond1) := rfl

theorem parse_number_loop_suffix (rest : List Nat) : ∀ (v pos v' p' : Nat) (r' : List Nat),
    Duration.parse_number_loop v rest pos = .ok (v', p', r') → r'.length ≤ rest.length := by
  induction rest with
  | nil =>
    intro v pos v' p' r' h
    rw [parse_number_loop_nil] at h
    simp at h
    rw [← h.2.2]
  | cons c rest1 ih =>
    intro v pos v' p' r' h
    rw [parse_number_loop_cons] at h
    by_cases hd : isDigit c = true
    · rw [if_pos hd] at h
      cases hm : checked_mul_u32 v 10 with
      | error e => rw [hm] at h; simp at h
      | ok v1 =>
        rw [hm] at h
        dsimp only at h
        cases ha : checked_add_u32 v1 (c - 48) with
        | error e => rw [ha] at h; simp at h
        | ok v2 =>
          rw [ha] at h
          dsimp only at h
          have := ih v2 (pos + 1) v' p' r' h
          simp
          omega
    · rw [if_neg hd] at h
      simp at h
      rw [← h.2.2]

theorem frac_loop_suffix (rest : List Nat) : ∀ (dec den : ℚ) (pos : Nat) (q : ℚ) (p' : Nat) (r' : List Nat),
    Duration.frac_loop dec den rest pos = (q, p', r') → r'.length ≤ rest.length := by
  induction rest with
  | nil =>
    intro dec den pos q p' r' h
    rw [frac_loop_nil] at h
    simp at h
    rw [← h.2.2]
  | cons c rest1 ih =>
    intro dec den pos q p' r' h
    rw [frac_loop_cons] at h
    by_cases hd : isDigit c = true
    · rw [if_pos hd] at h
      have := ih _ _ (pos + 1) q p' r' h
      simp
      omega
    · rw [if_neg hd] at h
      simp at h
      rw [← h.2.2]

theorem parse_number_frac_suffix (d1 : Nat) (rest : List Nat) (pos : Nat)
    (v : Nat) (f : Option ℚ) (p' : Nat) (r' : List Nat)
    (h : Duration.parse_number_frac d1 rest pos = .ok (v, f, p', r')) :
    r'.length ≤ rest.length := by
  unfold Duration.parse_number_frac at h
  unfold Duration.parse_number at h
  by_cases hd : isDigit d1 = true
  · rw [if_pos hd] at h
    cases hl : Duration.parse_number_loop (d1 - 48) rest (pos + 1) with
    | error e => rw [hl] at h; simp at h
    | ok res =>
      obtain ⟨v1, p1, r1⟩ := res
      have hr1 := parse_number_loop_suffix rest _ _ _ _ _ hl
      rw [hl] at h
      dsimp only at h
      cases r1 with
      | nil =>
        simp at h
        rw [h.2.2.2]
        simp
      | cons c r2 =>
        dsimp only at h
        by_cases hdot : c = 46 ∨ c = 44
        · rw [if_pos hdot] at h
          simp at h
          obtain ⟨h1', h2', h3'⟩ := h
          have hr' : (Duration.frac_loop 0 1 r2 (p1 + 1)).2.2 = r' :=
            congrArg Prod.snd h3'
          rw [← hr']
          have hr3 := frac_loop_suffix r2 0 1 (p1 + 1)
            (Duration.frac_loop 0 1 r2 (p1 + 1)).1
            (Duration.frac_loop 0 1 r2 (p1 + 1)).2.1
            (Duration.frac_loop 0 1 r2 (p1 + 1)).2.2 rfl
          simp at hr1
          omega
        · rw [if_neg hdot] at h
          simp at h
          rw [← h.2.2.2]
          exact hr1
  · rw [if_neg hd] at h
    simp at h

theorem iso_loop_fuel (n : Nat) : ∀ (rest : List Nat), rest.length ≤ n →
    ∀ (g1 g2 pos : Nat) (t l : Bool) (day sec mic : Nat),
    rest.length < g1 → rest.length < g2 →
    Duration.parse_iso_loop g1 rest pos t l day sec mic
      = Duration.parse_iso_loop g2 rest pos t l day sec mic := by
  induction n with
  | zero =>
    intro rest hlen g1 g2 pos t l day sec mic h1 h2
    have : rest = [] := List.length_eq_zero.mp (by omega)
    subst this
    obtain ⟨a, rfl⟩ : ∃ a, g1 = a + 1 := ⟨g1 - 1, by omega⟩
    obtain ⟨b, rfl⟩ : ∃ b, g2 = b + 1 := ⟨g2 - 1, by omega⟩
    rw [iso_loop_nil, iso_loop_nil]
  | succ n ih =>
    intro rest hlen g1 g2 pos t l day sec mic h1 h2
    cases rest with
    | nil =>
      obtain ⟨a, rfl⟩ : ∃ a, g1 = a + 1 := ⟨g1 - 1, by omega⟩
      obtain ⟨b, rfl⟩ : ∃ b, g2 = b + 1 := ⟨g2 - 1, by omega⟩
      rw [iso_loop_nil, iso_loop_nil]
    | cons c rest1 =>
      obtain ⟨a, rfl⟩ : ∃ a, g1 = a + 1 := ⟨g1 - 1, by omega⟩
      obtain ⟨b, rfl⟩ : ∃ b, g2 = b + 1 := ⟨g2 - 1, by omega⟩
      rw [iso_loop_cons, iso_loop_cons]
      have hlen1 : rest1.length ≤ n := by simp at hlen; omega
      have ha1 : rest1.length < a := by simp at h1; omega
      have hb1 : rest1.length < b := by simp at h2; omega
      by_cases hc : c = 84
      · rw [if_pos hc, if_pos hc]
        cases t
        · exact ih rest1 hlen1 a b (pos + 1) _ _ _ _ _ ha1 hb1
        · rfl
      · rw [if_neg hc, if_neg hc]
        cases hpf : Duration.parse_number_frac c rest1 pos with
        | error e => rfl
        | ok res =>
          obtain ⟨value, op_fraction, pos1, rest2⟩ := res
          have hsub : rest2.length ≤ rest1.length :=
            parse_number_frac_suffix c rest1 pos value op_fraction pos1 rest2 hpf
          try dsimp only
          cases l
          · rw [if_neg (by simp : ¬(false = true)), if_neg (by simp : ¬(false = true))]
            try dsimp only
            cases t
            · rw [if_neg (by simp : ¬(false = true)), if_neg (by simp : ¬(false = true))]
              cases rest2 with
              | nil => rfl
              | cons u rest3 =>
                try dsimp only
                have h3n : rest3.length ≤ n := by simp at hsub; omega
                have h3a : rest3.length < a := by simp at hsub; omega
                have h3b : rest3.length < b := by simp at hsub; omega
                cases hu : (if u = 89 then some 365 else if u = 77 then some 30
                    else if u = 87 then some 7 else if u = 68 then some (1:Nat) else none) with
                | none => rfl
                | some mult =>
                  try dsimp only
                  cases hmul : checked_mul_u32 value mult with
                  | error e => rfl
                  | ok vm =>
                    try dsimp only
                    cases hadd : checked_add_u32 day vm with
                    | error e => rfl
                    | ok day1 =>
                      try dsimp only
                      cases op_fraction with
                      | none =>
                        exact ih rest3 h3n a b (pos1 + 1) _ _ _ _ _ h3a h3b
                      | some fraction =>
                        try dsimp only
                        cases hadd2 : checked_add_u32 day1 (f64_as_u32 (ftrunc (fmul fraction (mult : ℚ)))) with
                        | error e => rfl
                        | ok day2 =>
                          try dsimp only
                          cases hadd3 : checked_add_u32 sec
                              (f64_as_u32 (ftrunc (fmul (fsub (fmul fraction (mult : ℚ)) (ftrunc (fmul fraction (mult : ℚ)))) 86400))) with
                          | error e => rfl
                          | ok second1 =>
                            exact ih rest3 h3n a b (pos1 + 1) _ _ _ _ _ h3a h3b
            · rw [if_pos rfl, if_pos rfl]
              cases rest2 with
              | nil => rfl
              | cons u rest3 =>
                try dsimp only
                have h3n : rest3.length ≤ n := by simp at hsub; omega
                have h3a : rest3.length < a := by simp at hsub; omega
                have h3b : rest3.length < b := by simp at hsub; omega
                cases hu : (if u = 72 then some 3600 else if u = 77 then some 60
                    else if u = 83 then some (1:Nat) else none) with
                | none => rfl
                | some mult =>
                  try dsimp only
                  cases hmul : checked_mul_u32 mult value with
                  | error e => rfl
                  | ok mv =>
                    try dsimp only
                    cases hadd : checked_add_u32 sec mv with
                    | error e => rfl
                    | ok second1 =>
                      try dsimp only
                      cases op_fraction with
                      | none =>
                        exact ih rest3 h3n a b (pos1 + 1) _ _ _ _ _ h3a h3b
                      | some fraction =>
                        try dsimp only
                        cases hadd2 : checked_add_u32 second1 (f64_as_u32 (ftrunc (fmul fraction (mult : ℚ)))) with
                        | error e => rfl
                        | ok second2 =>
                          try dsimp only
                          cases hadd3 : checked_add_u32 mic
                              (f64_as_u32 (fround (fmul (fsub (fmul fraction (mult : ℚ)) (ftrunc (fmul fraction (mult : ℚ)))) 1000000))) with
                          | error e => rfl
                          | ok microsecond1 =>
                            exact ih rest3 h3n a b (pos1 + 1) _ _ _ _ _ h3a h3b
          · rfl

/-! ## Lemmas for claim C8: single loop steps -/

theorem f64_as_u32_zero : f64_as_u32 0 = 0 := by
  unfold f64_as_u32
  rw [if_pos le_rfl]

theorem f64_as_u32_nat (n : Nat) (h : n < 4294967295) : f64_as_u32 ((n : ℕ) : ℚ) = n := by
  unfold f64_as_u32
  rcases Nat.eq_zero_or_pos n with h0 | h0
  · subst h0; norm_num
  · rw [if_neg, if_neg]
    · rw [Int.floor_natCast, Int.toNat_natCast]
    · intro hge
      have : (4294967295 : ℕ) ≤ n := by exact_mod_cast hge
      omega
    · intro hle
      have : (n:ℚ) > 0 := by exact_mod_cast h0
      linarith

theorem iso_T_step (g : Nat) (rest : List Nat) (pos : Nat) (lhf : Bool) (day sec mic : Nat) :
    Duration.parse_iso_loop (g + 1) (84 :: rest) pos false lhf day sec mic
      = Duration.parse_iso_loop g rest (pos + 1) true lhf day sec mic := by
  rw [iso_loop_cons, if_pos rfl, if_neg (by simp : ¬(false = true))]

theorem iso_date_step (g : Nat) (ds : List Nat) (u mult : Nat) (rest : List Nat) (pos : Nat)
    (day sec mic : Nat)
    (hne : ds ≠ []) (hds : ∀ c ∈ ds, isDigit c = true)
    (hu : (u = 89 ∧ mult = 365) ∨ (u = 77 ∧ mult = 30) ∨ (u = 87 ∧ mult = 7) ∨ (u = 68 ∧ mult = 1))
    (hval : digitsVal ds * mult ≤ u32max)
    (hday : day + digitsVal ds * mult ≤ u32max) :
    Duration.parse_iso_loop (g + 1) (ds ++ u :: rest) pos false false day sec mic
      = Duration.parse_iso_loop g rest (pos + ds.length + 1) false false
          (day + digitsVal ds * mult) sec mic := by
  obtain ⟨d1, ds1, rfl⟩ : ∃ d1 ds1, ds = d1 :: ds1 := by
    cases ds with
    | nil => exact absurd rfl hne
    | cons d1 ds1 => exact ⟨d1, ds1, rfl⟩
  rw [List.cons_append, iso_loop_cons]
  have hd1 : isDigit d1 = true := hds d1 (List.mem_cons_self d1 ds1)
  have hne84 : ¬(d1 = 84) := by
    intro h84
    subst h84
    unfold isDigit at hd1
    simp at hd1
  rw [if_neg hne84]
  have hnotdig : headNotDigit (u :: rest) := by
    intro c hc
    injection hc with hc
    subst hc
    unfold isDigit
    rcases hu with ⟨h, _⟩ | ⟨h, _⟩ | ⟨h, _⟩ | ⟨h, _⟩ <;> subst h <;> simp
  have hnodot : ∀ c, (u :: rest).head? = some c → ¬(c = 46 ∨ c = 44) := by
    intro c hc
    injection hc with hc
    subst hc
    rcases hu with ⟨h, _⟩ | ⟨h, _⟩ | ⟨h, _⟩ | ⟨h, _⟩ <;> subst h <;> simp
  have hmult1 : 1 ≤ mult := by
    rcases hu with ⟨_, h⟩ | ⟨_, h⟩ | ⟨_, h⟩ | ⟨_, h⟩ <;> omega
  have hbds : digitsVal (d1 :: ds1) ≤ u32max := by
    have : digitsVal (d1 :: ds1) ≤ digitsVal (d1 :: ds1) * mult :=
      Nat.le_mul_of_pos_right _ (by omega)
    omega
  rw [parse_number_frac_nofrac d1 ds1 hds hbds (u :: rest) hnotdig hnodot pos]
  dsimp only
  rw [if_neg (by simp : ¬(false = true)), if_neg (by simp : ¬(false = true))]
  have humatch : (if u = 89 then some 365 else if u = 77 then some 30
      else if u = 87 then some 7 else if u = 68 then some (1:Nat) else none) = some mult := by
    rcases hu with ⟨h1, h2⟩ | ⟨h1, h2⟩ | ⟨h1, h2⟩ | ⟨h1, h2⟩ <;> subst h1 <;> subst h2 <;> norm_num
  rw [humatch]
  dsimp only
  unfold checked_mul_u32
  rw [if_neg (not_lt.mpr hval)]
  dsimp only
  unfold checked_add_u32
  rw [if_neg (not_lt.mpr hday)]
  rfl

theorem iso_time_step (g : Nat) (ds : List Nat) (u mult : Nat) (rest : List Nat) (pos : Nat)
    (day sec mic : Nat)
    (hne : ds ≠ []) (hds : ∀ c ∈ ds, isDigit c = true)
    (hu : (u = 72 ∧ mult = 3600) ∨ (u = 77 ∧ mult = 60) ∨ (u = 83 ∧ mult = 1))
    (hval : mult * digitsVal ds ≤ u32max)
    (hsec : sec + mult * digitsVal ds ≤ u32max) :
    Duration.parse_iso_loop (g + 1) (ds ++ u :: rest) pos true false day sec mic
      = Duration.parse_iso_loop g rest (pos + ds.length + 1) true false day
          (sec + mult * digitsVal ds) mic := by
  obtain ⟨d1, ds1, rfl⟩ : ∃ d1 ds1, ds = d1 :: ds1 := by
    cases ds with
    | nil => exact absurd rfl hne
    | cons d1 ds1 => exact ⟨d1, ds1, rfl⟩
  rw [List.cons_append, iso_loop_cons]
  have hd1 : isDigit d1 = true := hds d1 (List.mem_cons_self d1 ds1)
  have hne84 : ¬(d1 = 84) := by
    intro h84
    subst h84
    unfold isDigit at hd1
    simp at hd1
  rw [if_neg hne84]
  have hnotdig : headNotDigit (u :: rest) := by
    intro c hc
    injection hc with hc
    subst hc
    unfold isDigit
    rcases hu with ⟨h, _⟩ | ⟨h, _⟩ | ⟨h, _⟩ <;> subst h <;> simp
  have hnodot : ∀ c, (u :: rest).head? = some c → ¬(c = 46 ∨ c = 44) := by
    intro c hc
    injection hc with hc
    subst hc
    rcases hu with ⟨h, _⟩ | ⟨h, _⟩ | ⟨h, _⟩ <;> subst h <;> simp
  have hmult1 : 1 ≤ mult := by
    rcases hu with ⟨_, h⟩ | ⟨_, h⟩ | ⟨_, h⟩ <;> omega
  have hbds : digitsVal (d1 :: ds1) ≤ u32max := by
    have : digitsVal (d1 :: ds1) ≤ mult * digitsVal (d1 :: ds1) :=
      Nat.le_mul_of_pos_left _ (by omega)
    omega
  rw [parse_number_frac_nofrac d1 ds1 hds hbds (u :: rest) hnotdig hnodot pos]
  dsimp only
  rw [if_neg (by simp : ¬(false = true)), if_pos rfl]
  have humatch : (if u = 72 then some 3600 else if u = 77 then some 60
      else if u = 83 then some (1:Nat) else none) = some mult := by
    rcases hu with ⟨h1, h2⟩ | ⟨h1, h2⟩ | ⟨h1, h2⟩ <;> subst h1 <;> subst h2 <;> norm_num
  rw [humatch]
  dsimp only
  unfold checked_mul_u32
  rw [if_neg (not_lt.mpr hval)]
  dsimp only
  unfold checked_add_u32
  rw [if_neg (not_lt.mpr hsec)]
  rfl

theorem iso_sfrac_step (g : Nat) (ds fds rest : List Nat) (pos day sec mic : Nat)
    (hne : ds ≠ []) (hds : ∀ c ∈ ds, isDigit c = true)
    (hfne : fds ≠ []) (hfds : ∀ c ∈ fds, isDigit c = true)
    (hflen : fds.length ≤ 6)
    (hf1 : 1 ≤ digitsVal fds) (hflt : digitsVal fds < 10 ^ fds.length)
    (hsec : sec + digitsVal ds ≤ u32max)
    (hmic : mic + digitsVal fds * 10 ^ (6 - fds.length) ≤ u32max) :
    Duration.parse_iso_loop (g + 1) (ds ++ 46 :: (fds ++ 83 :: rest)) pos true false day sec mic
      = Duration.parse_iso_loop g rest (pos + ds.length + fds.length + 2) true true day
          (sec + digitsVal ds) (mic + digitsVal fds * 10 ^ (6 - fds.length)) := by
  obtain ⟨d1, ds1, rfl⟩ : ∃ d1 ds1, ds = d1 :: ds1 := by
    cases ds with
    | nil => exact absurd rfl hne
    | cons d1 ds1 => exact ⟨d1, ds1, rfl⟩
  rw [List.cons_append, iso_loop_cons]
  have hd1 : isDigit d1 = true := hds d1 (List.mem_cons_self d1 ds1)
  have hne84 : ¬(d1 = 84) := by
    intro h84
    subst h84
    unfold isDigit at hd1
    simp at hd1
  rw [if_neg hne84]
  have hbds : digitsVal (d1 :: ds1) ≤ u32max := by omega
  have hfb : digitsVal fds ≤ 999999 := by
    have h10 : (10:ℕ) ^ fds.length ≤ 10 ^ 6 := Nat.pow_le_pow_right (by norm_num) hflen
    have : (10:ℕ) ^ 6 = 1000000 := by norm_num
    omega
  have hnotdig : headNotDigit (83 :: rest) := by
    intro c hc
    injection hc with hc
    subst hc
    rfl
  rw [parse_number_frac_frac d1 ds1 fds (83 :: rest) hds hbds hfds hfb hflen hnotdig pos]
  dsimp only
  rw [if_neg (by simp : ¬(false = true)), if_pos rfl]
  rw [show (if (83:Nat) = 72 then some 3600 else if (83:Nat) = 77 then some 60
      else if (83:Nat) = 83 then some (1:Nat) else none) = some 1 by norm_num]
  dsimp only
  unfold checked_mul_u32
  rw [if_neg (by unfold u32max at hsec ⊢; omega : ¬(u32max < 1 * digitsVal (d1 :: ds1)))]
  dsimp only
  unfold checked_add_u32
  rw [if_neg (by unfold u32max at hsec ⊢; omega : ¬(u32max < sec + 1 * digitsVal (d1 :: ds1)))]
  dsimp only
  -- the fraction: q = fdiv dnum 10^k
  obtain ⟨hq0, hq1, hidem, hfround⟩ :=
    frac_q_spec (digitsVal fds) fds.length (List.length_pos.mpr hfne) hflen hf1 hflt
  have hes : fmul (fdiv ((digitsVal fds : Nat) : ℚ) ((10 ^ fds.length : Nat) : ℚ)) ((1 : Nat) : ℚ)
      = fdiv ((digitsVal fds : Nat) : ℚ) ((10 ^ fds.length : Nat) : ℚ) := by
    unfold fmul
    rw [Nat.cast_one, mul_one]
    exact hidem
  rw [hes]
  have htr : ftrunc (fdiv ((digitsVal fds : Nat) : ℚ) ((10 ^ fds.length : Nat) : ℚ)) = 0 := by
    unfold ftrunc
    rw [if_pos (le_of_lt hq0)]
    rw [Int.floor_eq_zero_iff.mpr ⟨le_of_lt hq0, hq1⟩]
    norm_num
  rw [htr, f64_as_u32_zero]
  rw [if_neg (by unfold u32max at hsec ⊢; omega : ¬(u32max < sec + 1 * digitsVal (d1 :: ds1) + 0))]
  dsimp only
  have hsub0 : fsub (fdiv ((digitsVal fds : Nat) : ℚ) ((10 ^ fds.length : Nat) : ℚ)) 0
      = fdiv ((digitsVal fds : Nat) : ℚ) ((10 ^ fds.length : Nat) : ℚ) := by
    unfold fsub
    rw [sub_zero]
    exact hidem
  rw [hsub0]
  have hfm6 : digitsVal fds * 10 ^ (6 - fds.length) < 1000000 := by
    have hpw : (10:ℕ) ^ fds.length * 10 ^ (6 - fds.length) = 1000000 := by
      rw [← pow_add, show fds.length + (6 - fds.length) = 6 by omega]
      norm_num
    calc digitsVal fds * 10 ^ (6 - fds.length)
        < 10 ^ fds.length * 10 ^ (6 - fds.length) :=
          Nat.mul_lt_mul_of_lt_of_le hflt (le_refl _) (by positivity)
      _ = 1000000 := hpw
  have hmicro : f64_as_u32 (fround (fmul (fdiv ((digitsVal fds : Nat) : ℚ) ((10 ^ fds.length : Nat) : ℚ)) 1000000))
      = digitsVal fds * 10 ^ (6 - fds.length) := by
    unfold fmul
    rw [hfround]
    apply f64_as_u32_nat
    omega
  rw [hmicro]
  rw [if_neg (not_lt.mpr hmic)]
  dsimp only
  rw [Nat.one_mul]
  have harith : pos + ds1.length + fds.length + 2 + 1 = pos + (d1 :: ds1).length + fds.length + 2 := by
    simp
    omega
  rw [harith]
  rfl

theorem iso_T_stepC (rest : List Nat) (pos : Nat) (lhf : Bool) (day sec mic : Nat) :
    Duration.parse_iso_loop ((84 :: rest).length + 1) (84 :: rest) pos false lhf day sec mic
      = Duration.parse_iso_loop (rest.length + 1) rest (pos + 1) true lhf day sec mic := by
  rw [show (84 :: rest).length + 1 = (rest.length + 1) + 1 by simp]
  exact iso_T_step (rest.length + 1) rest pos lhf day sec mic

theorem iso_date_stepC (ds : List Nat) (u mult : Nat) (rest : List Nat) (pos : Nat)
    (day sec mic : Nat)
    (hne : ds ≠ []) (hds : ∀ c ∈ ds, isDigit c = true)
    (hu : (u = 89 ∧ mult = 365) ∨ (u = 77 ∧ mult = 30) ∨ (u = 87 ∧ mult = 7) ∨ (u = 68 ∧ mult = 1))
    (hval : digitsVal ds * mult ≤ u32max)
    (hday : day + digitsVal ds * mult ≤ u32max) :
    Duration.parse_iso_loop ((ds ++ u :: rest).length + 1) (ds ++ u :: rest) pos false false day sec mic
      = Duration.parse_iso_loop (rest.length + 1) rest (pos + ds.length + 1) false false
          (day + digitsVal ds * mult) sec mic := by
  rw [show (ds ++ u :: rest).length + 1 = (ds.length + rest.length + 1) + 1 by
    simp [List.length_append]; omega]
  rw [iso_date_step (ds.length + rest.length + 1) ds u mult rest pos day sec mic hne hds hu hval hday]
  exact iso_loop_fuel rest.length rest le_rfl _ _ _ _ _ _ _ _ (by omega) (by omega)

theorem iso_time_stepC (ds : List Nat) (u mult : Nat) (rest : List Nat) (pos : Nat)
    (day sec mic : Nat)
    (hne : ds ≠ []) (hds : ∀ c ∈ ds, isDigit c = true)
    (hu : (u = 72 ∧ mult = 3600) ∨ (u = 77 ∧ mult = 60) ∨ (u = 83 ∧ mult = 1))
    (hval : mult * digitsVal ds ≤ u32max)
    (hsec : sec + mult * digitsVal ds ≤ u32max) :
    Duration.parse_iso_loop ((ds ++ u :: rest).length + 1) (ds ++ u :: rest) pos true false day sec mic
      = Duration.parse_iso_loop (rest.length + 1) rest (pos + ds.length + 1) true false day
          (sec + mult * digitsVal ds) mic := by
  rw [show (ds ++ u :: rest).length + 1 = (ds.length + rest.length + 1) + 1 by
    simp [List.length_append]; omega]
  rw [iso_time_step (ds.length + rest.length + 1) ds u mult rest pos day sec mic hne hds hu hval hsec]
  exact iso_loop_fuel rest.length rest le_rfl _ _ _ _ _ _ _ _ (by omega) (by omega)

theorem iso_sfrac_stepC (ds fds rest : List Nat) (pos day sec mic : Nat)
    (hne : ds ≠ []) (hds : ∀ c ∈ ds, isDigit c = true)
    (hfne : fds ≠ []) (hfds : ∀ c ∈ fds, isDigit c = true)
    (hflen : fds.length ≤ 6)
    (hf1 : 1 ≤ digitsVal fds) (hflt : digitsVal fds < 10 ^ fds.length)
    (hsec : sec + digitsVal ds ≤ u32max)
    (hmic : mic + digitsVal fds * 10 ^ (6 - fds.length) ≤ u32max) :
    Duration.parse_iso_loop ((ds ++ 46 :: (fds ++ 83 :: rest)).length + 1)
        (ds ++ 46 :: (fds ++ 83 :: rest)) pos true false day sec mic
      = Duration.parse_iso_loop (rest.length + 1) rest (pos + ds.length + fds.length + 2) true true day
          (sec + digitsVal ds) (mic + digitsVal fds * 10 ^ (6 - fds.length)) := by
  rw [show (ds ++ 46 :: (fds ++ 83 :: rest)).length + 1
      = (ds.length + fds.length + rest.length + 2) + 1 by
    simp only [List.length_append, List.length_cons]; omega]
  rw [iso_sfrac_step (ds.length + fds.length + rest.length + 2) ds fds rest pos day sec mic
      hne hds hfne hfds hflen hf1 hflt hsec hmic]
  exact iso_loop_fuel rest.length rest le_rfl _ _ _ _ _ _ _ _ (by omega) (by omega)

/-! ## Lemmas for claim C8: the date and time segments -/

theorem iso_loop_congr (k : Nat) (rest : List Nat) (p1 p2 : Nat) (t l : Bool)
    (d1 d2 s1 s2 m1 m2 : Nat) (hp : p1 = p2) (hd : d1 = d2) (hs : s1 = s2) (hm : m1 = m2) :
    Duration.parse_iso_loop k rest p1 t l d1 s1 m1
      = Duration.parse_iso_loop k rest p2 t l d2 s2 m2 := by
  rw [hp, hd, hs, hm]

theorem date_part_loop (day : Nat) (hday : day ≤ 999999999) (rest : List Nat) (pos sec mic : Nat) :
    Duration.parse_iso_loop
        (((if day ≠ 0 then
             (if day / 365 ≠ 0 then natDigits (day / 365) ++ [89] else []) ++
             (if day % 365 ≠ 0 then natDigits (day % 365) ++ [68] else [])
           else []) ++ rest).length + 1)
        ((if day ≠ 0 then
            (if day / 365 ≠ 0 then natDigits (day / 365) ++ [89] else []) ++
            (if day % 365 ≠ 0 then natDigits (day % 365) ++ [68] else [])
          else []) ++ rest) pos false false 0 sec mic
      = Duration.parse_iso_loop (rest.length + 1) rest
          (pos + (if day ≠ 0 then
             (if day / 365 ≠ 0 then natDigits (day / 365) ++ [89] else []) ++
             (if day % 365 ≠ 0 then natDigits (day % 365) ++ [68] else [])
           else []).length) false false day sec mic := by
  by_cases h0 : day = 0
  · rw [if_neg (by simp [h0])]
    simp only [List.nil_append, List.length_nil, Nat.add_zero]
    rw [h0]
  · rw [if_pos h0]
    by_cases hy : day / 365 = 0
    · rw [if_neg (by simp [hy])]
      by_cases hr : day % 365 = 0
      · exfalso
        omega
      · rw [if_pos hr]
        simp only [List.nil_append, List.append_assoc, List.singleton_append, List.cons_append]
        rw [iso_date_stepC (natDigits (day % 365)) 68 1 rest pos 0 sec mic
            (natDigits_ne_nil _) (natDigits_digits _)
            (Or.inr (Or.inr (Or.inr ⟨rfl, rfl⟩)))
            (by rw [digitsVal_natDigits]; unfold u32max; omega)
            (by rw [digitsVal_natDigits]; unfold u32max; omega)]
        apply iso_loop_congr
        · simp only [List.length_append, List.length_cons, List.length_nil]
          omega
        · rw [digitsVal_natDigits]
          omega
        · rfl
        · rfl
    · rw [if_pos hy]
      by_cases hr : day % 365 = 0
      · rw [if_neg (by simp [hr])]
        simp only [List.append_nil, List.nil_append, List.append_assoc, List.singleton_append, List.cons_append]
        rw [iso_date_stepC (natDigits (day / 365)) 89 365 rest pos 0 sec mic
            (natDigits_ne_nil _) (natDigits_digits _)
            (Or.inl ⟨rfl, rfl⟩)
            (by rw [digitsVal_natDigits]; unfold u32max; omega)
            (by rw [digitsVal_natDigits]; unfold u32max; omega)]
        apply iso_loop_congr
        · simp only [List.length_append, List.length_cons, List.length_nil]
          omega
        · rw [digitsVal_natDigits]
          omega
        · rfl
        · rfl
      · rw [if_pos hr]
        simp only [List.append_assoc, List.singleton_append, List.cons_append, List.nil_append]
        rw [iso_date_stepC (natDigits (day / 365)) 89 365
            (natDigits (day % 365) ++ 68 :: rest) pos 0 sec mic
            (natDigits_ne_nil _) (natDigits_digits _)
            (Or.inl ⟨rfl, rfl⟩)
            (by rw [digitsVal_natDigits]; unfold u32max; omega)
            (by rw [digitsVal_natDigits]; unfold u32max; omega)]
        rw [iso_date_stepC (natDigits (day % 365)) 68 1 rest
            (pos + (natDigits (day / 365)).length + 1)
            (0 + digitsVal (natDigits (day / 365)) * 365) sec mic
            (natDigits_ne_nil _) (natDigits_digits _)
            (Or.inr (Or.inr (Or.inr ⟨rfl, rfl⟩)))
            (by rw [digitsVal_natDigits]; unfold u32max; omega)
            (by rw [digitsVal_natDigits, digitsVal_natDigits]; unfold u32max; omega)]
        apply iso_loop_congr
        · simp only [List.length_append, List.length_cons, List.length_nil]
          omega
        · rw [digitsVal_natDigits, digitsVal_natDigits]
          omega
        · rfl
        · rfl

theorem ok_quad_congr (d1 d2 s1 s2 m1 m2 p1 p2 : Nat) (hd : d1 = d2) (hs : s1 = s2)
    (hm : m1 = m2) (hp : p1 = p2) :
    (Except.ok (d1, s1, m1, p1) : Except ParseError (Nat × Nat × Nat × Nat))
      = .ok (d2, s2, m2, p2) := by
  rw [hd, hs, hm, hp]

theorem spart_loop (s mic day secacc pos : Nat) (hm : mic < 1000000)
    (hsb : secacc + s ≤ 86400) (hms : ¬(s ≠ 0 ∨ mic ≠ 0) → s = 0 ∧ mic = 0) :
    Duration.parse_iso_loop
        ((if s ≠ 0 ∨ mic ≠ 0 then
            natDigits s ++ ((if mic ≠ 0 then 46 :: trimTrailingZeros (pad6 mic) else []) ++ [83])
          else []).length + 1)
        (if s ≠ 0 ∨ mic ≠ 0 then
           natDigits s ++ ((if mic ≠ 0 then 46 :: trimTrailingZeros (pad6 mic) else []) ++ [83])
         else []) pos true false day secacc 0
      = .ok (day, secacc + s, mic,
          pos + (if s ≠ 0 ∨ mic ≠ 0 then
            natDigits s ++ ((if mic ≠ 0 then 46 :: trimTrailingZeros (pad6 mic) else []) ++ [83])
          else []).length) := by
  by_cases hS : s ≠ 0 ∨ mic ≠ 0
  · rw [if_pos hS]
    by_cases hmic : mic = 0
    · rw [if_neg (by simp [hmic])]
      simp only [List.nil_append]
      rw [iso_time_stepC (natDigits s) 83 1 [] pos day secacc 0
          (natDigits_ne_nil _) (natDigits_digits _)
          (Or.inr (Or.inr ⟨rfl, rfl⟩))
          (by rw [digitsVal_natDigits]; unfold u32max; omega)
          (by rw [digitsVal_natDigits]; unfold u32max; omega)]
      rw [iso_loop_nil]
      refine ok_quad_congr _ _ _ _ _ _ _ _ rfl ?_ ?_ ?_
      · rw [digitsVal_natDigits]
        omega
      · omega
      · simp only [List.length_append, List.length_cons, List.length_nil]
        omega
    · rw [if_pos hmic]
      simp only [List.cons_append, List.nil_append]
      obtain ⟨hfne, hfdig, hflen, hf1, hflt, hfval⟩ := fd_spec mic (by omega) hm
      rw [iso_sfrac_stepC (natDigits s) (trimTrailingZeros (pad6 mic)) [] pos day secacc 0
          (natDigits_ne_nil _) (natDigits_digits _) hfne hfdig hflen hf1 hflt
          (by rw [digitsVal_natDigits]; unfold u32max; omega)
          (by unfold u32max; omega)]
      rw [iso_loop_nil]
      refine ok_quad_congr _ _ _ _ _ _ _ _ rfl ?_ ?_ ?_
      · rw [digitsVal_natDigits]
      · omega
      · simp only [List.length_append, List.length_cons, List.length_nil]
        omega
  · rw [if_neg hS]
    obtain ⟨hs0, hm0⟩ := hms hS
    rw [iso_loop_nil]
    exact ok_quad_congr _ _ _ _ _ _ _ _ rfl (by omega) (by omega) (by simp)

theorem mpart_loop (m s mic day secacc pos : Nat) (hm : mic < 1000000) (hm60 : m < 60)
    (hsb : secacc + 60 * m + s ≤ 86400) (hms : ¬(s ≠ 0 ∨ mic ≠ 0) → s = 0 ∧ mic = 0) :
    Duration.parse_iso_loop
        (((if m ≠ 0 then natDigits m ++ [77] else []) ++
          (if s ≠ 0 ∨ mic ≠ 0 then
             natDigits s ++ ((if mic ≠ 0 then 46 :: trimTrailingZeros (pad6 mic) else []) ++ [83])
           else [])).length + 1)
        ((if m ≠ 0 then natDigits m ++ [77] else []) ++
         (if s ≠ 0 ∨ mic ≠ 0 then
            natDigits s ++ ((if mic ≠ 0 then 46 :: trimTrailingZeros (pad6 mic) else []) ++ [83])
          else [])) pos true false day secacc 0
      = .ok (day, secacc + 60 * m + s, mic,
          pos + ((if m ≠ 0 then natDigits m ++ [77] else []) ++
            (if s ≠ 0 ∨ mic ≠ 0 then
               natDigits s ++ ((if mic ≠ 0 then 46 :: trimTrailingZeros (pad6 mic) else []) ++ [83])
             else [])).length) := by
  by_cases hM : m = 0
  · rw [if_neg (by simp [hM])]
    simp only [List.nil_append]
    rw [spart_loop s mic day secacc pos hm (by omega) hms]
    refine ok_quad_congr _ _ _ _ _ _ _ _ rfl (by omega) rfl rfl
  · rw [if_pos hM]
    simp only [List.append_assoc, List.singleton_append, List.cons_append, List.nil_append]
    rw [iso_time_stepC (natDigits m) 77 60 _ pos day secacc 0
        (natDigits_ne_nil _) (natDigits_digits _)
        (Or.inr (Or.inl ⟨rfl, rfl⟩))
        (by rw [digitsVal_natDigits]; unfold u32max; omega)
        (by rw [digitsVal_natDigits]; unfold u32max; omega)]
    rw [digitsVal_natDigits]
    rw [spart_loop s mic day (secacc + 60 * m) (pos + (natDigits m).length + 1) hm (by omega) hms]
    refine ok_quad_congr _ _ _ _ _ _ _ _ rfl rfl rfl ?_
    simp only [List.length_append, List.length_cons, List.length_nil]
    omega

theorem time_part_loop (sec mic day pos : Nat) (hs : sec < 86400) (hm : mic < 1000000) :
    Duration.parse_iso_loop
        ((84 :: ((if sec / 3600 ≠ 0 then natDigits (sec / 3600) ++ [72] else []) ++
          ((if sec % 3600 / 60 ≠ 0 then natDigits (sec % 3600 / 60) ++ [77] else []) ++
           (if sec % 60 ≠ 0 ∨ mic ≠ 0 then
              natDigits (sec % 60) ++
                ((if mic ≠ 0 then 46 :: trimTrailingZeros (pad6 mic) else []) ++ [83])
            else [])))).length + 1)
        (84 :: ((if sec / 3600 ≠ 0 then natDigits (sec / 3600) ++ [72] else []) ++
          ((if sec % 3600 / 60 ≠ 0 then natDigits (sec % 3600 / 60) ++ [77] else []) ++
           (if sec % 60 ≠ 0 ∨ mic ≠ 0 then
              natDigits (sec % 60) ++
                ((if mic ≠ 0 then 46 :: trimTrailingZeros (pad6 mic) else []) ++ [83])
            else [])))) pos false false day 0 0
      = .ok (day, sec, mic,
          pos + (84 :: ((if sec / 3600 ≠ 0 then natDigits (sec / 3600) ++ [72] else []) ++
            ((if sec % 3600 / 60 ≠ 0 then natDigits (sec % 3600 / 60) ++ [77] else []) ++
             (if sec % 60 ≠ 0 ∨ mic ≠ 0 then
                natDigits (sec % 60) ++
                  ((if mic ≠ 0 then 46 :: trimTrailingZeros (pad6 mic) else []) ++ [83])
              else [])))).length) := by
  rw [iso_T_stepC]
  have hms : ¬(sec % 60 ≠ 0 ∨ mic ≠ 0) → sec % 60 = 0 ∧ mic = 0 := by
    intro h
    push_neg at h
    exact h
  by_cases hH : sec / 3600 = 0
  · rw [if_neg (by simp [hH])]
    simp only [List.nil_append]
    rw [mpart_loop (sec % 3600 / 60) (sec % 60) mic day 0 (pos + 1) hm (by omega) (by omega) hms]
    refine ok_quad_congr _ _ _ _ _ _ _ _ rfl (by omega) rfl ?_
    simp only [List.length_cons]
    omega
  · rw [if_pos hH]
    simp only [List.append_assoc, List.singleton_append, List.cons_append, List.nil_append]
    rw [iso_time_stepC (natDigits (sec / 3600)) 72 3600 _ (pos + 1) day 0 0
        (natDigits_ne_nil _) (natDigits_digits _)
        (Or.inl ⟨rfl, rfl⟩)
        (by rw [digitsVal_natDigits]; unfold u32max; omega)
        (by rw [digitsVal_natDigits]; unfold u32max; omega)]
    rw [digitsVal_natDigits]
    rw [mpart_loop (sec % 3600 / 60) (sec % 60) mic day (0 + 3600 * (sec / 3600))
        (pos + 1 + (natDigits (sec / 3600)).length + 1) hm (by omega) (by omega) hms]
    refine ok_quad_congr _ _ _ _ _ _ _ _ rfl (by omega) rfl ?_
    simp only [List.length_append, List.length_cons, List.length_nil]
    omega

/-! ## Claim C8: the duration roundtrip -/

theorem natDigits_length_pos (n : Nat) : 1 ≤ (natDigits n).length :=
  List.length_pos.mpr (natDigits_ne_nil n)

theorem datePart_len (day : Nat) (h0 : day ≠ 0) :
    2 ≤ ((if day ≠ 0 then
        (if day / 365 ≠ 0 then natDigits (day / 365) ++ [89] else []) ++
        (if day % 365 ≠ 0 then natDigits (day % 365) ++ [68] else [])
      else []) : List Nat).length := by
  rw [if_pos h0]
  by_cases hy : day / 365 = 0
  · by_cases hr : day % 365 = 0
    · exfalso; omega
    · rw [if_neg (by simp [hy]), if_pos hr]
      simp only [List.nil_append, List.length_append, List.length_cons, List.length_nil]
      have := natDigits_length_pos (day % 365)
      omega
  · rw [if_pos hy]
    simp only [List.length_append, List.length_cons, List.length_nil]
    have := natDigits_length_pos (day / 365)
    omega

theorem timeInner_len (sec mic : Nat) (h : ¬(sec = 0 ∧ mic = 0)) (hs : sec < 86400) :
    2 ≤ (((if sec / 3600 ≠ 0 then natDigits (sec / 3600) ++ [72] else []) ++
      ((if sec % 3600 / 60 ≠ 0 then natDigits (sec % 3600 / 60) ++ [77] else []) ++
       (if sec % 60 ≠ 0 ∨ mic ≠ 0 then
          natDigits (sec % 60) ++
            ((if mic ≠ 0 then 46 :: trimTrailingZeros (pad6 mic) else []) ++ [83])
        else []))) : List Nat).length := by
  simp only [List.length_append]
  by_cases hS : sec % 60 ≠ 0 ∨ mic ≠ 0
  · rw [if_pos hS]
    simp only [List.length_append, List.length_cons, List.length_nil]
    have := natDigits_length_pos (sec % 60)
    omega
  · push_neg at hS
    by_cases hH : sec / 3600 = 0
    · have hM : sec % 3600 / 60 ≠ 0 := by omega
      rw [if_pos hM]
      simp only [List.length_append, List.length_cons, List.length_nil]
      have := natDigits_length_pos (sec % 3600 / 60)
      omega
    · rw [if_pos hH]
      simp only [List.length_append, List.length_cons, List.length_nil]
      have := natDigits_length_pos (sec / 3600)
      omega

theorem iso_fmtBody (p : Bool) (day sec mic : Nat) (hd : day ≤ 999999999) (hs : sec < 86400)
    (hm : mic < 1000000) (off : Nat) (hoff : 1 ≤ off) :
    Duration.parse_iso_duration (fmtBody ⟨p, day, sec, mic⟩) off
      = .ok ⟨false, day, sec, mic⟩ := by
  have hfb : fmtBody ⟨p, day, sec, mic⟩ =
      (if day ≠ 0 then
         (if day / 365 ≠ 0 then natDigits (day / 365) ++ [89] else []) ++
         (if day % 365 ≠ 0 then natDigits (day % 365) ++ [68] else [])
       else []) ++
      ((if sec ≠ 0 ∨ mic ≠ 0 then
         84 :: ((if sec / 3600 ≠ 0 then natDigits (sec / 3600) ++ [72] else []) ++
           ((if sec % 3600 / 60 ≠ 0 then natDigits (sec % 3600 / 60) ++ [77] else []) ++
            (if sec % 60 ≠ 0 ∨ mic ≠ 0 then
               natDigits (sec % 60) ++
                 ((if mic ≠ 0 then 46 :: trimTrailingZeros (pad6 mic) else []) ++ [83])
             else [])))
        else []) ++
       (if sec = 0 ∧ mic = 0 ∧ day = 0 then [84, 48, 83] else [])) := by
    unfold fmtBody Duration.to_hms
    dsimp only
    simp only [List.append_assoc, List.singleton_append, List.cons_append, List.nil_append]
  rw [hfb]
  unfold Duration.parse_iso_duration
  by_cases hzero : sec = 0 ∧ mic = 0 ∧ day = 0
  · obtain ⟨hz1, hz2, hz3⟩ := hzero
    rw [if_neg (show ¬(day ≠ 0) by simp [hz3]),
        if_neg (show ¬(sec ≠ 0 ∨ mic ≠ 0) by simp [hz1, hz2]),
        if_pos (show sec = 0 ∧ mic = 0 ∧ day = 0 from ⟨hz1, hz2, hz3⟩)]
    simp only [List.nil_append]
    rw [show ([84, 48, 83] : List Nat) = 84 :: ([48] ++ 83 :: []) from rfl]
    rw [iso_T_stepC]
    rw [iso_time_stepC [48] 83 1 [] (off + 1) 0 0 0
        (by simp) (by intro c hc; simp at hc; subst hc; rfl)
        (Or.inr (Or.inr ⟨rfl, rfl⟩))
        (by norm_num [digitsVal, u32max])
        (by norm_num [digitsVal, u32max])]
    rw [iso_loop_nil]
    dsimp only
    split
    · next hlt =>
        exfalso
        simp only [List.length_cons, List.length_nil] at hlt
        omega
    · rw [hz1, hz2, hz3]
      rfl
  · rw [if_neg hzero]
    simp only [List.append_nil]
    by_cases htime : sec = 0 ∧ mic = 0
    · have hday0 : day ≠ 0 := by tauto
      rw [if_neg (show ¬(sec ≠ 0 ∨ mic ≠ 0) by simp [htime.1, htime.2])]
      simp only [List.append_nil]
      have hlen := datePart_len day hday0
      rw [show ((if day ≠ 0 then
          (if day / 365 ≠ 0 then natDigits (day / 365) ++ [89] else []) ++
          (if day % 365 ≠ 0 then natDigits (day % 365) ++ [68] else [])
        else []) : List Nat)
        = ((if day ≠ 0 then
          (if day / 365 ≠ 0 then natDigits (day / 365) ++ [89] else []) ++
          (if day % 365 ≠ 0 then natDigits (day % 365) ++ [68] else [])
        else []) : List Nat) ++ [] from (List.append_nil _).symm]
      rw [date_part_loop day hd [] off 0 0]
      rw [iso_loop_nil]
      dsimp only
      have hlen := datePart_len day hday0
      set L := ((if day ≠ 0 then
          (if day / 365 ≠ 0 then natDigits (day / 365) ++ [89] else []) ++
          (if day % 365 ≠ 0 then natDigits (day % 365) ++ [68] else [])
        else []) : List Nat).length with hL
      rw [if_neg (show ¬(off + L < 3) by omega)]
      rw [htime.1, htime.2]
    · have hor : sec ≠ 0 ∨ mic ≠ 0 := by tauto
      rw [if_pos hor]
      rw [date_part_loop day hd _ off 0 0]
      rw [time_part_loop sec mic day _ hs hm]
      dsimp only
      have hlen2 := timeInner_len sec mic (by tauto) hs
      rw [List.length_cons]
      set Ld := ((if day ≠ 0 then
          (if day / 365 ≠ 0 then natDigits (day / 365) ++ [89] else []) ++
          (if day % 365 ≠ 0 then natDigits (day % 365) ++ [68] else [])
        else []) : List Nat).length with hLd
      set Li := (((if sec / 3600 ≠ 0 then natDigits (sec / 3600) ++ [72] else []) ++
          ((if sec % 3600 / 60 ≠ 0 then natDigits (sec % 3600 / 60) ++ [77] else []) ++
           (if sec % 60 ≠ 0 ∨ mic ≠ 0 then
              natDigits (sec % 60) ++
                ((if mic ≠ 0 then 46 :: trimTrailingZeros (pad6 mic) else []) ++ [83])
            else []))) : List Nat).length with hLi
      rw [if_neg (show ¬(off + Ld + (Li + 1) < 3) by omega)]

theorem normalize_canonical (d : Duration) (hm : d.microsecond < 1000000) (hs : d.second < 86400)
    (hd : d.day ≤ 999999999) : Duration.normalize d = .ok d := by
  unfold Duration.normalize
  rw [if_neg (by omega : ¬(1000000 ≤ d.microsecond))]
  dsimp only
  rw [if_neg (by omega : ¬(86400 ≤ d.second))]
  dsimp only
  rw [if_neg (by omega : ¬(999999999 < d.day))]

theorem parse_bytes_iso_pos (body : List Nat) :
    Duration.parse_bytes (80 :: body) =
      (match Duration.parse_iso_duration body 1 with
       | .error e => .error e
       | .ok dd => Duration.normalize ⟨true, dd.day, dd.second, dd.microsecond⟩) := rfl

theorem parse_bytes_iso_neg (body : List Nat) :
    Duration.parse_bytes (45 :: 80 :: body) =
      (match Duration.parse_iso_duration body 2 with
       | .error e => .error e
       | .ok dd => Duration.normalize ⟨false, dd.day, dd.second, dd.microsecond⟩) := rfl

/-- C8: for every Duration in canonical form (microsecond < 1,000,000,
second < 86,400, day ≤ 999,999,999), parsing the `Display` rendering with
`Duration::parse_bytes` returns exactly the original Duration; a
zero-magnitude duration renders as "PT0S" (with a leading '-' when
negative) and parses back to itself. -/
theorem claim_C8_duration_roundtrip (d : Duration) (hm : d.microsecond < 1000000)
    (hs : d.second < 86400) (hd : d.day ≤ 999999999) :
    Duration.parse_bytes (Duration.fmt d) = .ok d := by
  obtain ⟨p, day, sec, mic⟩ := d
  rw [fmt_eq_body]
  cases p
  · rw [if_neg (by simp)]
    rw [show (([45] : List Nat) ++ 80 :: fmtBody ⟨false, day, sec, mic⟩)
        = 45 :: 80 :: fmtBody ⟨false, day, sec, mic⟩ from rfl]
    rw [parse_bytes_iso_neg]
    rw [iso_fmtBody false day sec mic hd hs hm 2 (by omega)]
    exact normalize_canonical ⟨false, day, sec, mic⟩ hm hs hd
  · rw [if_pos rfl]
    rw [show (([] : List Nat) ++ 80 :: fmtBody ⟨true, day, sec, mic⟩)
        = 80 :: fmtBody ⟨true, day, sec, mic⟩ from rfl]
    rw [parse_bytes_iso_pos]
    rw [iso_fmtBody true day sec mic hd hs hm 1 (by omega)]
    exact normalize_canonical ⟨true, day, sec, mic⟩ hm hs hd

/-- Witness for C8 at the duration +P1DT2.000003S (day 1, second 2,
microsecond 3). -/
theorem claim_C8_witness :
    (⟨true, 1, 2, 3⟩ : Duration).microsecond < 1000000 ∧
    (⟨true, 1, 2, 3⟩ : Duration).second < 86400 ∧
    (⟨true, 1, 2, 3⟩ : Duration).day ≤ 999999999 ∧
    Duration.parse_bytes (Duration.fmt ⟨true, 1, 2, 3⟩) = .ok ⟨true, 1, 2, 3⟩ :=
  ⟨by decide, by decide, by decide,
   claim_C8_duration_roundtrip ⟨true, 1, 2, 3⟩ (by decide) (by decide) (by decide)⟩
